import Mathlib

/-!
Verification of the `loccount` SLOC counter (single-file Go program
`loccount.go`).  The program classifies source files by language and counts
logical lines of code.  We give a shallow embedding of its per-language
counting scanners, its classifier `Generic`, the generated-file filter, the
hashbang sniffer, and the walker's first-error latch, and prove or refute the
frozen specification claims about them.

Files are modelled as their byte content, a `List Char` (all delimiters the
program cares about are single ASCII bytes, so `Char` stands in for `byte`).
A file whose `os.Open` fails is modelled as a missing content (`none`):
`countContext.setup` logs the error and returns `false`, but every caller
ignores that return value, so the subsequent read happens on a `nil`
`bufio.Reader` and panics; we model a Go panic as the `none` result of an
`Option`-valued function.  Logging (`log.Printf`) and the `line_number` /
`startline` bookkeeping that only feeds log messages are elided: they do not
affect any returned count.
-/

namespace Loccount

abbrev Content := List Char

/-- `isspace` from loccount.go: space, tab, CR, NL, FF.  (This is also the
character set of Go's regexp class `\s`, which we reuse below.) -/
def isspace (c : Char) : Bool :=
  c = ' ' || c = '\t' || c = '\r' || c = '\n' || c = '\x0c'

/-- `strings.HasPrefix` / `bytes.HasPrefix`. -/
def goHasPrefix (s pre : Content) : Bool := pre.isPrefixOf s

/-- `strings.HasSuffix` on paths: the rule suffix must be a suffix of the path. -/
def goHasSuffix (s suf : Content) : Bool := suf.isSuffixOf s

/-- `strings.Contains` / `bytes.Contains`. -/
def goContains (s sub : Content) : Bool :=
  match s with
  | [] => sub.isPrefixOf ([] : Content)
  | c :: rest => sub.isPrefixOf (c :: rest) || goContains rest sub

/-- `ctx.line = ctx.line[:i]` where `i = bytes.Index(line, pat)`, a no-op when
`pat` does not occur.  `bytes.Index` of an empty pattern is 0, truncating the
whole line, which the prefix test reproduces. -/
def truncBefore (pat : Content) : Content → Content
  | [] => []
  | c :: rest =>
    if pat.isPrefixOf (c :: rest) then [] else c :: truncBefore pat rest

/-- `bytes.Trim(line, cutset)`: remove leading and trailing bytes in `cutset`. -/
def goTrim (cutset : Content) (l : Content) : Content :=
  ((l.dropWhile (· ∈ cutset)).reverse.dropWhile (· ∈ cutset)).reverse

/-- Trim with cutset `" \t\r\n"`, the form used by all the line counters. -/
def trimWS (l : Content) : Content := goTrim [' ', '\t', '\r', '\n'] l

/-- The lines delivered by repeated `ctx.munchline()` calls:
`bufio.ReadBytes('\n')` returns each line including its terminating newline;
at EOF a final fragment without a newline makes `munchline` return `false`,
so such a fragment is never delivered. -/
def completeLinesGo (acc : Content) : Content → List Content
  | [] => []
  | c :: rest =>
    if c = '\n' then (acc.reverse ++ ['\n']) :: completeLinesGo [] rest
    else completeLinesGo (c :: acc) rest

/-- The lines of a file, as read by `munchline` (see above). -/
def completeLines (l : Content) : List Content := completeLinesGo [] l

/-- Number of newline bytes in the content. -/
def nlcount (l : Content) : Nat := l.countP (· = '\n')

/-- Physical lines of a file: newline-terminated lines plus a final unterminated
fragment, if any. -/
def plines (l : Content) : Nat :=
  nlcount l + (if l ≠ [] ∧ l.getLast? ≠ some '\n' then 1 else 0)

/-! ### The Python triple-quote counter (`pythonCounter`)

`pythonCounter` works line by line and erases string literals with six
precompiled regular expressions.  Each is translated here into an explicit
function on the line's bytes; the translation comments quote the pattern.
A `munchline` line contains exactly one newline, as its last byte. -/

/-- `dt`/`st`: the two triple-quote markers. -/
def dt : Content := ['\"', '\"', '\"']

def st : Content := ['\'', '\'', '\'']

/-- `dtriple`/`striple` = `ReplaceAllLiteral` of `t.t` (for `t` a triple-quote
marker) by the empty string: remove every leftmost non-overlapping occurrence
of marker, one non-newline byte, marker (the regexp `.` does not match a
newline). -/
def tripleSameLineReplAux (t : Content) : Nat → Content → Content
  | 0, l => l
  | _ + 1, [] => []
  | fuel + 1, c :: rest =>
    let l := c :: rest
    if t.isPrefixOf l ∧ (l.drop 3).head? ≠ some '\n' ∧ (l.drop 3).head?.isSome
        ∧ t.isPrefixOf (l.drop 4) then
      tripleSameLineReplAux t fuel (l.drop 7)
    else
      c :: tripleSameLineReplAux t fuel rest

/-- Entry point of the same-line triple-quote erasure; the fuel is the line
length, which the scan never exhausts. -/
def tripleSameLineRepl (t : Content) (l : Content) : Content :=
  tripleSameLineReplAux t l.length l

/-- `dlonely`/`slonely` = `ReplaceAllLiteral` of `^[ \t]*q[^q]+q` by the empty
string (`q` the quote): anchored at the start of the line, so at most one
replacement happens, erasing leading blanks, a quote, one or more non-quote
bytes, and a closing quote. -/
def lonelyRepl (q : Char) (l : Content) : Content :=
  let ws := l.takeWhile (fun c => c = ' ' ∨ c = '\t')
  let rest := l.drop ws.length
  match rest with
  | [] => l
  | c :: r2 =>
    if c = q then
      let body := r2.takeWhile (· ≠ q)
      if body ≠ [] ∧ (r2.drop body.length).head? = some q then
        r2.drop (body.length + 1)
      else l
    else l

/-- Rightmost occurrence of `pat` in `l`: the suffix just after it, or `none`
when `pat` does not occur.  (`pat` is a triple-quote marker, never empty.) -/
def afterLast (pat : Content) : Content → Option Content
  | [] => none
  | c :: rest =>
    match afterLast pat rest with
    | some r => some r
    | none =>
      if pat.isPrefixOf (c :: rest) then some ((c :: rest).drop pat.length)
      else none

/-- `dtrailer`/`strailer` = `ReplaceAllLiteral` of `.*t` by `rep`: the greedy
`.*` cannot cross a newline, so each match runs from the start of a
newline-free span to the last occurrence of the marker `t` inside that span;
the replacement scan then continues after the newline. -/
def trailerReplAux (t rep : Content) : Nat → Content → Content
  | 0, l => l
  | fuel + 1, l =>
    let seg := l.takeWhile (· ≠ '\n')
    let seg2 := match afterLast t seg with
      | some r => rep ++ r
      | none => seg
    match l.drop seg.length with
    | [] => seg2
    | nl :: r2 => seg2 ++ nl :: trailerReplAux t rep fuel r2

/-- Entry point of the `.*t` replacement; the fuel is the line length, which
the scan never exhausts. -/
def trailerRepl (t rep : Content) (l : Content) : Content :=
  trailerReplAux t rep l.length l

/-- `triple_boundary` from `pythonCounter`: does the line contain either
triple-quote marker? -/
def triple_boundary (line : Content) : Bool :=
  goContains line dt || goContains line st

/-- Per-line state of `pythonCounter`. -/
structure PyState where
  isintriple : Bool
  isincomment : Bool
  sloc : Nat
deriving Repr, DecidableEq

/-- One `munchline` iteration of `pythonCounter` (loccount.go lines 1137-1191). -/
def pythonStep (s : PyState) (line0 : Content) : PyState :=
  -- Delete trailing comments
  let line1 := truncBefore ['#'] line0
  let (line2, intrip, incmt) :=
    if ¬s.isintriple then
      -- erase same-line triples, lonely strings, then trailing comments again
      let la := tripleSameLineRepl dt line1
      let lb := tripleSameLineRepl st la
      let lc := lonelyRepl '\"' lb
      let ld := lonelyRepl '\'' lc
      let le := truncBefore ['#'] ld
      if triple_boundary le then
        let lf := trimWS le
        (lf, true, goHasPrefix lf dt || goHasPrefix lf st)
      else (le, s.isintriple, s.isincomment)
    else
      if triple_boundary line1 then
        let la :=
          if s.isincomment then
            trailerRepl st [] (trailerRepl dt [] line1)
          else
            trailerRepl st ['x'] (trailerRepl dt ['x'] line1)
        -- another triple may open on the same line; if so the state is kept
        if triple_boundary la then (la, s.isintriple, s.isincomment)
        else (la, false, false)
      else (line1, s.isintriple, s.isincomment)
  let final := trimWS line2
  { isintriple := intrip, isincomment := incmt,
    sloc := if ¬incmt ∧ final ≠ [] then s.sloc + 1 else s.sloc }

/-- `pythonCounter` on an opened file's bytes. -/
def pythonCount (content : Content) : Nat :=
  ((completeLines content).foldl pythonStep ⟨false, false, 0⟩).sloc

/-! ### The Perl counter (`perlCounter`)

Works line by line; tracks an active here-document terminator (`heredoc`) and
whether the scan is inside a POD documentation block (`isinpod`).  A line whose
trimmed, comment-stripped text begins with `__END__` stops the scan. -/

/-- `podheader` = `^=[a-zA-Z]`: the line begins with `=` followed by an ASCII
letter (`=` followed by a space is not a POD command). -/
def podheaderMatch (l : Content) : Prop :=
  match l with
  | c1 :: c2 :: _ => c1 = '=' ∧ (('a' ≤ c2 ∧ c2 ≤ 'z') ∨ ('A' ≤ c2 ∧ c2 ≤ 'Z'))
  | _ => False

instance (l : Content) : Decidable (podheaderMatch l) := by
  unfold podheaderMatch
  match l with
  | [] => exact inferInstanceAs (Decidable False)
  | [_] => exact inferInstanceAs (Decidable False)
  | _ :: _ :: _ => exact inferInstanceAs (Decidable (_ ∧ _))

/-- Suffix of `l` starting at the first occurrence of `pat`
(`bytes.Index` + reslice), or `none` when `pat` does not occur. -/
def fromFirst (pat : Content) : Content → Option Content
  | [] => if pat.isPrefixOf ([] : Content) then some [] else none
  | c :: rest =>
    if pat.isPrefixOf (c :: rest) then some (c :: rest) else fromFirst pat rest

/-- Per-line state of `perlCounter`. -/
structure PerlState where
  heredoc : Content
  isinpod : Bool
  sloc : Nat
deriving Repr, DecidableEq

/-- One `munchline` iteration of `perlCounter` (loccount.go lines 1220-1255).
The bool result is `true` when the loop `break`s (`__END__`). -/
def perlStep (s : PerlState) (line0 : Content) : PerlState × Bool :=
  let l := trimWS (truncBefore ['#'] line0)
  -- the count check at the bottom of the loop body
  let countIf : PerlState → PerlState := fun s2 =>
    if ¬s2.isinpod ∧ l ≠ [] then { s2 with sloc := s2.sloc + 1 } else s2
  if s.heredoc ≠ [] ∧ goHasPrefix l s.heredoc then
    (countIf { s with heredoc := [] }, false)      -- finished here doc
  else
    match fromFirst ['<', '<'] l with
    | some tailpart =>                             -- beginning of a here document
      (countIf { s with
        heredoc := goTrim ['<', ' ', '\t', '\x22', '\'', ';', ','] tailpart }, false)
    | none =>
      if s.heredoc = [] ∧ goHasPrefix l ['=', 'c', 'u', 't'] then
        ({ s with isinpod := false }, false)       -- continue: do not count the cut
      else if s.heredoc = [] ∧ podheaderMatch l then
        (countIf { s with isinpod := true }, false)
      else if goHasPrefix l ['_', '_', 'E', 'N', 'D', '_', '_'] then
        (s, true)                                  -- stop processing on __END__
      else (countIf s, false)

/-- The `munchline` loop of `perlCounter`. -/
def perlLoop (s : PerlState) : List Content → Nat
  | [] => s.sloc
  | line :: rest =>
    match perlStep s line with
    | (s2, true) => s2.sloc
    | (s2, false) => perlLoop s2 rest

/-- `perlCounter` on an opened file's bytes. -/
def perlCount (content : Content) : Nat :=
  perlLoop ⟨[], false, 0⟩ (completeLines content)


/-! ### The C-family scanner (`c_family_counter`)

A byte-at-a-time four-state machine.  The Go loop reads one byte per
iteration with `getachar`, but several branches read further bytes and rebind
`c`; the final `if c == '\n'` line-count check applies to the last byte read.
We model one Go loop iteration as `cfamStep = cfamNewline ∘ cfamDispatch`:
`cfamDispatch` is the mode dispatch (returning the rebound `c` and the
remaining input) and `cfamNewline` is the trailing newline block.  `getachar`
at EOF yields the byte 0, which the code then compares normally. -/

/-- The scanner modes `NORMAL` / `INSTRING` / `INMULTISTRING` / `INCOMMENT`. -/
inductive CfMode where
  | NORMAL | INSTRING | INMULTISTRING | INCOMMENT
deriving Repr, DecidableEq

/-- `BLOCK_COMMENT` / `TRAILING_COMMENT`. -/
inductive CfComment where
  | BLOCK | TRAILING
deriving Repr, DecidableEq

/-- A row of the `genericLanguages` table. -/
structure GenLang where
  name : String
  suffix : Content
  commentleader : Content
  commenttrailer : Content
  eolcomment : Content
  multistring : Content
  eolwarn : Bool
  verifier : Option (Content → Bool)

/-- Go's `s[i]` byte indexing.  Out-of-range access panics in Go; every
reachable index below is guarded by a length condition or by the table
invariant that nonempty comment leaders/trailers are two bytes long, so the
default byte 0 is never produced on a reachable path. -/
def nthByte (s : Content) (i : Nat) : Char := s.getD i (Char.ofNat 0)

/-- Scanner state: mode, pending comment type, the `nonblank` line flag, the
`lexfile` flag, and the accumulated SLOC. -/
structure CState where
  mode : CfMode
  ctype : CfComment
  nonblank : Bool
  lexfile : Bool
  sloc : Nat
deriving Repr, DecidableEq

/-- The scan loop inside the single-quote branch: read bytes until a quote, a
newline, or EOF, returning the last byte read (byte 0 at EOF) and the rest. -/
def charlitScan : Content → Char × Content
  | [] => (Char.ofNat 0, [])
  | x :: xs => if x = '\'' ∨ x = '\n' then (x, xs) else charlitScan xs

/-- The `'` branch of `NORMAL` mode: one byte is read, one more if it was a
backslash, then `charlitScan` runs. -/
def charlitConsume (l : Content) : Char × Content :=
  match l with
  | [] => (Char.ofNat 0, [])
  | a :: r => charlitScan (if a = '\\' then r.tail else r)

/-- The mode dispatch of one loop iteration (loccount.go lines 990-1069):
given the byte `c` just read and the remaining input, returns the updated
state, the final value of `c`, and the remaining input. -/
def cfamDispatch (g : GenLang) (s : CState) (c : Char) (rest : Content) :
    CState × Char × Content :=
  match s.mode with
  | .NORMAL =>
    if ¬s.lexfile ∧ c = '\"' then
      ({ s with nonblank := true, mode := .INSTRING }, c, rest)
    else if ¬s.lexfile ∧ c = '\'' then
      let (c1, r1) := charlitConsume rest
      ({ s with nonblank := true }, c1, r1)
    else if c = nthByte g.commentleader 0 ∧ rest.head? = some (nthByte g.commentleader 1) then
      ({ s with mode := .INCOMMENT, ctype := .BLOCK }, nthByte g.commentleader 1, rest.tail)
    else if g.eolcomment ≠ [] ∧ c = nthByte g.eolcomment 0 ∧
        (1 < g.eolcomment.length ∧ rest.head? = some (nthByte g.eolcomment 1)) then
      ({ s with mode := .INCOMMENT, ctype := .TRAILING }, nthByte g.eolcomment 1, rest.tail)
    else if g.multistring ≠ [] ∧ c = nthByte g.multistring 0 then
      ({ s with mode := .INMULTISTRING }, c, rest)
    else if ¬isspace c then
      ({ s with nonblank := true }, c, rest)
    else (s, c, rest)
  | .INSTRING =>
    let s1 := if ¬isspace c then { s with nonblank := true } else s
    if c = '\"' then
      ({ s1 with mode := .NORMAL }, c, rest)
    else if c = '\\' ∧ (rest.head? = some '\"' ∨ rest.head? = some '\\') then
      (s1, rest.headD (Char.ofNat 0), rest.tail)
    else if c = '\\' ∧ rest.head? = some '\n' then
      (s1, '\n', rest.tail)
    else
      -- a bare newline only triggers a warning; the mode is kept
      (s1, c, rest)
  | .INMULTISTRING =>
    let s1 := if ¬isspace c then { s with nonblank := true } else s
    if c = nthByte g.multistring 0 then
      ({ s1 with mode := .NORMAL }, c, rest)
    else (s1, c, rest)
  | .INCOMMENT =>
    let s1 := if c = '\n' ∧ s.ctype = .TRAILING then { s with mode := .NORMAL } else s
    if s.ctype = .BLOCK ∧ c = nthByte g.commenttrailer 0 ∧
        rest.head? = some (nthByte g.commenttrailer 1) then
      ({ s1 with mode := .NORMAL }, nthByte g.commenttrailer 1, rest.tail)
    else (s1, c, rest)

/-- The `if c == '\n'` block closing one loop iteration: count the line when
`nonblank`, reset the flag, and `consume("%")` — a `%` opening the next line
marks the file as a lex specification and the line as nonblank. -/
def cfamNewline (s1 : CState) (c1 : Char) (rest1 : Content) : CState × Content :=
  if c1 = '\n' then
    let s2 := { s1 with sloc := if s1.nonblank then s1.sloc + 1 else s1.sloc,
                        nonblank := false }
    match rest1 with
    | '%' :: r2 => ({ s2 with lexfile := true, nonblank := true }, r2)
    | _ => (s2, rest1)
  else (s1, rest1)

/-- One full iteration of the `c_family_counter` loop. -/
def cfamStep (g : GenLang) (s : CState) (c : Char) (rest : Content) :
    CState × Content :=
  match cfamDispatch g s c rest with
  | (s1, c1, rest1) => cfamNewline s1 c1 rest1

/-- The main loop; each iteration consumes at least the head byte, so fuel
equal to the input length is never exhausted. -/
def cfamLoopAux (g : GenLang) : Nat → CState → Content → CState
  | 0, s, _ => s
  | _ + 1, s, [] => s
  | fuel + 1, s, c :: rest =>
    match cfamStep g s c rest with
    | (s2, rem) => cfamLoopAux g fuel s2 rem

/-- Run the scanner loop to EOF from a given state. -/
def cfamRun (g : GenLang) (s : CState) (input : Content) : CState :=
  cfamLoopAux g input.length s input

/-- The scanner's starting state.  `comment_type` is the zero value
`BLOCK_COMMENT`; `nonblank` is false on entry (the context is freshly
allocated per file, and every earlier counter resets the flag on exit);
`lexfile` is threaded in from the classifier's shared context. -/
def cfamInit (lex0 : Bool) : CState :=
  ⟨.NORMAL, .BLOCK, false, lex0, 0⟩

/-- EOF handling of `c_family_counter`: a final line without a newline is
counted via the pending `nonblank` flag. -/
def cfamFinish (g : GenLang) (lex0 : Bool) (content : Content) : Nat × Bool :=
  match cfamRun g (cfamInit lex0) content with
  | fin => (if fin.nonblank then fin.sloc + 1 else fin.sloc, fin.lexfile)

/-- `c_family_counter` on an opened file's bytes (also returning the final
`lexfile` flag, which lives in the context shared across one classification):
a failing verifier short-circuits to 0 before the scan. -/
def c_family_counter (g : GenLang) (lex0 : Bool) (content : Content) : Nat × Bool :=
  match g.verifier with
  | some v => if ¬v content then (0, lex0) else cfamFinish g lex0 content
  | none => cfamFinish g lex0 content

/-! ### The plain winged-comment counter (`genericCounter`) -/

/-- The `munchline` loop of `genericCounter`: strip everything from the
comment leader on, trim blanks, count nonempty remainders. -/
def genericCountLines (eol : Content) (content : Content) : Nat :=
  (completeLines content).countP (fun line => trimWS (truncBefore eol line) ≠ [])

/-- `genericCounter` on an opened file's bytes; a failing verifier
short-circuits to 0. -/
def genericCount (eol : Content) (verifier : Option (Content → Bool))
    (content : Content) : Nat :=
  match verifier with
  | some v => if ¬v content then 0 else genericCountLines eol content
  | none => genericCountLines eol content

/-! ### The bracket-comment counter (`pascalCounter`) -/

/-- A row of the `pascalLikes` table. -/
structure PascalLike where
  name : String
  suffix : Content
  bracketcomments : Bool
  verifier : Option (Content → Bool)

/-- State of `pascalCounter`: `NORMAL` or `INCOMMENT`, the line flag, and the
count. -/
structure PasState where
  mode : CfMode
  nonblank : Bool
  sloc : Nat
deriving Repr, DecidableEq

/-- One loop iteration of `pascalCounter` (loccount.go lines 1274-1302).
Note that in `NORMAL` mode the newline test is the `else` of the
non-whitespace test, and in `INCOMMENT` mode newlines neither count lines nor
reset the flag. -/
def pasStep (g : PascalLike) (s : PasState) (c : Char) (rest : Content) :
    PasState × Content :=
  match s.mode with
  | .INCOMMENT =>
    if g.bracketcomments ∧ c = '}' then ({ s with mode := .NORMAL }, rest)
    else if c = '*' ∧ rest.head? = some ')' then
      ({ s with mode := .NORMAL }, rest.tail)
    else (s, rest)
  | _ =>
    if g.bracketcomments ∧ c = '{' then ({ s with mode := .INCOMMENT }, rest)
    else if c = '(' ∧ rest.head? = some '*' then
      ({ s with mode := .INCOMMENT }, rest.tail)
    else if ¬isspace c then ({ s with nonblank := true }, rest)
    else if c = '\n' then
      ({ s with sloc := if s.nonblank then s.sloc + 1 else s.sloc,
                nonblank := false }, rest)
    else (s, rest)

/-- The main loop of `pascalCounter`; fuel as in `cfamLoopAux`. -/
def pasLoopAux (g : PascalLike) : Nat → PasState → Content → PasState
  | 0, s, _ => s
  | _ + 1, s, [] => s
  | fuel + 1, s, c :: rest =>
    match pasStep g s c rest with
    | (s2, rem) => pasLoopAux g fuel s2 rem

/-- Run the `pascalCounter` loop to EOF. -/
def pasRun (g : PascalLike) (s : PasState) (input : Content) : PasState :=
  pasLoopAux g input.length s input

/-- `pascalCounter` on an opened file's bytes: verifier check, scan, and the
EOF-without-newline fixup. -/
def pascalCount (g : PascalLike) (content : Content) : Nat :=
  match g.verifier with
  | some v => if ¬v content then 0 else
      match pasRun g ⟨.NORMAL, false, 0⟩ content with
      | fin => if fin.nonblank then fin.sloc + 1 else fin.sloc
  | none =>
      match pasRun g ⟨.NORMAL, false, 0⟩ content with
      | fin => if fin.nonblank then fin.sloc + 1 else fin.sloc

/-! ### The column-position counter (`fortranCounter`) -/

/-- A row of the `fortranLikes` table; the two compiled regular expressions
are modelled as line predicates. -/
structure FortranLike where
  name : String
  suffix : Content
  comment : Content → Bool
  nocomment : Content → Bool

/-- `fortranCounter`: a line counts unless it matches the comment pattern
without matching the no-comment override. -/
def fortranCount (g : FortranLike) (content : Content) : Nat :=
  (completeLines content).countP (fun line => !(g.comment line && !g.nocomment line))

/-- Proof device for the per-line monotonicity bound: the number of lines a
scan can still produce from the remaining input — the physical lines of the
remainder, or the one pending `nonblank` line at EOF. -/
def cap (nb : Bool) (l : Content) : Nat :=
  if l = [] then (if nb then 1 else 0) else plines l

/-! ### Verifiers and the generated-file filter

The verifiers scan whole files with `munchline` and test each line against
compiled regular expressions.  Each pattern used is translated into an
explicit function on the line's bytes; a comment quotes the pattern.  Go's
regexp `\s` is the byte class `[\t\n\f\r ]`, the same set as the scanner's
`isspace`. -/

/-- ASCII lower-casing, for the `(?i:...)` case-insensitive patterns. -/
def lowerChar (c : Char) : Char :=
  if 'A' ≤ c ∧ c ≤ 'Z' then Char.ofNat (c.toNat + 32) else c

/-- Case-insensitive prefix test. -/
def prefixCI : Content → Content → Bool
  | [], _ => true
  | _ :: _, [] => false
  | p :: ps, c :: cs => lowerChar p = lowerChar c && prefixCI ps cs

/-- Unanchored search: does `p` hold at some position of the line? -/
def anywhere (p : Content → Bool) : Content → Bool
  | [] => p []
  | c :: r => p (c :: r) || anywhere p r

/-- Search across `.*`: does `p` hold at a later position reached without
crossing a newline (`.` does not match a newline)? -/
def gapSearch (p : Content → Bool) : Content → Bool
  | [] => p []
  | c :: r => p (c :: r) || (c ≠ '\n' && gapSearch p r)

/-- Word-constituent byte, for `\b` boundaries. -/
def wordChar (c : Char) : Bool :=
  ('0' ≤ c ∧ c ≤ '9') || ('a' ≤ c ∧ c ≤ 'z') || ('A' ≤ c ∧ c ≤ 'Z') || c = '_'

/-- Unanchored search that also tracks the preceding byte, for `\b`. -/
def anywherePrev (p : Option Char → Content → Bool) :
    Option Char → Content → Bool
  | prev, [] => p prev []
  | prev, c :: r => p prev (c :: r) || anywherePrev p (some c) r

/-- A position is at a left word boundary when the previous byte, if any, is
not a word constituent. -/
def atBoundary : Option Char → Bool
  | none => true
  | some c => !wordChar c

/-- One alternative of the generated-file phrase list starts here
(`(?i:automatically generated|generated automatically|generated by|a lexical
scanner generated by flex|this is a generated file|generated with
the.*utility|do not edit|do not hand-hack)`). -/
def generatedPhraseAt (l : Content) : Bool :=
  prefixCI "automatically generated".toList l ||
  prefixCI "generated automatically".toList l ||
  prefixCI "generated by".toList l ||
  prefixCI "a lexical scanner generated by flex".toList l ||
  prefixCI "this is a generated file".toList l ||
  (prefixCI "generated with the".toList l &&
    gapSearch (fun r => prefixCI "utility".toList r) (l.drop 18)) ||
  prefixCI "do not edit".toList l ||
  prefixCI "do not hand-hack".toList l

/-- One line of `was_generated_automatically`: the regexp
`(\*|<eolcomment>).*(?i:<phrases>)`, where the `<eolcomment>` alternative is
dropped when the comment leader is `*` (COBOL).  An empty `eolcomment` gives
an empty alternative, which matches everywhere. -/
def generatedLine (eol : Content) (line : Content) : Bool :=
  let markers : List Content := if eol = ['*'] then [['*']] else [['*'], eol]
  anywhere (fun l2 =>
    markers.any (fun m =>
      m.isPrefixOf l2 && gapSearch generatedPhraseAt (l2.drop m.length))) line

/-- `was_generated_automatically`: the first 15 complete lines are tested. -/
def wasGenerated (eol : Content) (content : Content) : Bool :=
  ((completeLines content).take 15).any (generatedLine eol)

/-- `has_keywords`: any line matches any of the given literal patterns
(every pattern passed by a caller is a literal byte string). -/
def has_keywords (tells : List Content) (content : Content) : Bool :=
  (completeLines content).any (fun line => tells.any (goContains line))

/-- `really_is_occam`: tells `--` and `PROC`. -/
def really_is_occam (content : Content) : Bool :=
  has_keywords ["--".toList, "PROC".toList] content

/-- `really_is_lex`: tells `%{`, `%%`, `%}` (all literal in Go regexp). -/
def really_is_lex (content : Content) : Bool :=
  has_keywords [['%', '{'], "%%".toList, ['%', '}']] content

/-- `really_is_pop11`: tells `define` and `printf`. -/
def really_is_pop11 (content : Content) : Bool :=
  has_keywords ["define".toList, "printf".toList] content

/-- `really_is_sather`: tell `class`. -/
def really_is_sather (content : Content) : Bool :=
  has_keywords ["class".toList] content

/-- The pattern `\$[[\:alpha]]` of `really_is_prolog`.  Go's regexp parser
reads `[[:alpha]]` (missing the closing `:]`) as the class `[[:alph]`
followed by a literal `]`: a `$`, one byte from `[:alph`, then `]`. -/
def prologDollarMatch (line : Content) : Bool :=
  anywhere (fun l => match l with
    | d :: x :: y :: _ =>
      d = '$' &&
        (x = '[' || x = ':' || x = 'a' || x = 'l' || x = 'p' || x = 'h') &&
        y = ']'
    | _ => false) line

/-- The line scan of `really_is_prolog`: `false` as soon as a line starts
with `#` or matches the `$`-pattern, `true` at EOF. -/
def prologLines : List Content → Bool
  | [] => true
  | line :: rest =>
    if goHasPrefix line ['#'] then false
    else if prologDollarMatch line then false
    else prologLines rest

/-- `really_is_prolog`. -/
def really_is_prolog (content : Content) : Bool :=
  prologLines (completeLines content)

/-- `^\s*[{}]`: optional whitespace then a brace. -/
def wsThenBrace (l : Content) : Bool :=
  match (l.dropWhile isspace).head? with
  | some c => c = '{' || c = '}'
  | none => false

/-- `[{}];?\s*`: since `;?` and `\s*` may be empty, any brace matches. -/
def anyBrace (l : Content) : Bool := l.any (fun c => c = '{' || c = '}')

/-- `^\s*[+-]`: optional whitespace then `+` or `-`. -/
def wsThenPlusMinus (l : Content) : Bool :=
  match (l.dropWhile isspace).head? with
  | some c => c = '+' || c = '-'
  | none => false

/-- `\bmain\s*\(`: `main` at a word boundary, optional whitespace, `(`. -/
def mainCallMatch (line : Content) : Bool :=
  anywherePrev (fun prev l =>
    atBoundary prev && "main".toList.isPrefixOf l &&
      ((l.drop 4).dropWhile isspace).head? = some '(') none line

/-- `(?i)^\s*\[object name\];\s*`: the trailing `\s*` may be empty. -/
def objcSpecialMatch (line : Content) : Bool :=
  prefixCI "[object name];".toList (line.dropWhile isspace)

/-- Per-line state of `really_is_objc`. -/
structure ObjcState where
  brace_lines : Nat
  plus_minus : Nat
  word_main : Nat
  special : Bool
  is_objc : Bool
deriving Repr, DecidableEq

/-- One line of `really_is_objc` (loccount.go lines 622-641). -/
def objcLine (st : ObjcState) (line : Content) : ObjcState :=
  let brace_lines :=
    if wsThenBrace line || anyBrace line then st.brace_lines + 1
    else st.brace_lines
  let plus_minus :=
    if wsThenPlusMinus line then st.plus_minus + 1 else st.plus_minus
  let word_main :=
    if mainCallMatch line then st.word_main + 1 else st.word_main
  let special := st.special || objcSpecialMatch line
  let is_objc := st.is_objc ||
    (decide (1 < brace_lines) &&
      (decide (1 < plus_minus) || decide (0 < word_main) || special))
  ⟨brace_lines, plus_minus, word_main, special, is_objc⟩

/-- `really_is_objc`. -/
def really_is_objc (content : Content) : Bool :=
  ((completeLines content).foldl objcLine ⟨0, 0, 0, false, false⟩).is_objc

/-- `\{\s*$`: a `{` followed only by whitespace to the end of the line. -/
def braceThenWSEnd (l : Content) : Bool :=
  anywhere (fun l2 => match l2 with
    | '{' :: r => r.all isspace
    | _ => false) l

/-- `};?\s*$`: a `}`, an optional `;`, then whitespace to the end. -/
def closeBraceEnd (l : Content) : Bool :=
  anywhere (fun l2 => match l2 with
    | '}' :: r =>
      r.all isspace || (match r with
        | ';' :: r2 => r2.all isspace
        | _ => false)
    | _ => false) l

/-- `^\s*}`. -/
def wsThenCloseBrace (l : Content) : Bool :=
  (l.dropWhile isspace).head? = some '}'

/-- `^\s*\{`. -/
def wsThenOpenBrace (l : Content) : Bool :=
  (l.dropWhile isspace).head? = some '{'

/-- `^\s*<word>\s` for a literal word: leading whitespace, the word, then one
whitespace byte. -/
def wsWordThenWS (word : Content) (l : Content) : Bool :=
  let t := l.dropWhile isspace
  word.isPrefixOf t &&
    (match (t.drop word.length).head? with
     | some c => isspace c
     | none => false)

/-- `^\s*load_lib\s+\S`: leading whitespace, `load_lib`, at least one
whitespace byte, then a non-whitespace byte. -/
def loadLibMatch (l : Content) : Bool :=
  let t := l.dropWhile isspace
  "load_lib".toList.isPrefixOf t &&
    (match (t.drop 8).head? with
     | some c => isspace c
     | none => false) &&
    (match ((t.drop 8).dropWhile isspace).head? with
     | some d => !isspace d
     | none => false)

/-- `\[.*\]`: a `[` and a later `]` with no newline between. -/
def bracketsMatch (l : Content) : Bool :=
  anywhere (fun l2 => match l2 with
    | '[' :: r => gapSearch (fun r2 => match r2 with
        | ']' :: _ => true
        | _ => false) r
    | _ => false) l

/-- Per-line state of `really_is_expect`. -/
structure ExpectState where
  begin_brace : Bool
  end_brace : Bool
  load_lib : Bool
  found_proc : Bool
  found_if : Bool
  found_brackets : Bool
  found_expect : Bool
  found_pound : Bool
deriving Repr, DecidableEq

/-- One line of `really_is_expect` (loccount.go lines 737-774): a line with a
`#` is truncated at the first `#` before the remaining tests run. -/
def expectLine (st : ExpectState) (line0 : Content) : ExpectState :=
  let found_pound := st.found_pound || goContains line0 ['#']
  let line := truncBefore ['#'] line0
  { begin_brace := st.begin_brace || wsThenOpenBrace line || braceThenWSEnd line
    end_brace := st.end_brace || wsThenCloseBrace line || closeBraceEnd line
    load_lib := st.load_lib || loadLibMatch line
    found_proc := st.found_proc || wsWordThenWS "proc".toList line
    found_if := st.found_if || wsWordThenWS "if".toList line
    found_brackets := st.found_brackets || bracketsMatch line
    found_expect := st.found_expect || wsWordThenWS "expect".toList line
    found_pound := found_pound }

/-- `really_is_expect`. -/
def really_is_expect (content : Content) : Bool :=
  let st := (completeLines content).foldl expectLine
    ⟨false, false, false, false, false, false, false, false⟩
  (st.load_lib && (st.found_pound || (st.begin_brace && st.end_brace))) ||
  (st.begin_brace && st.end_brace &&
    (st.found_proc || st.found_if || st.found_brackets || st.found_expect))

/-- `(?i)\b<word>\s+[A-Za-z]`: the word at a left boundary, one or more
whitespace bytes, then a letter. -/
def wordThenName (word : Content) (line : Content) : Bool :=
  anywherePrev (fun prev l =>
    atBoundary prev && prefixCI word l &&
      (match (l.drop word.length).head? with
       | some c => isspace c
       | none => false) &&
      (match ((l.drop word.length).dropWhile isspace).head? with
       | some d => ('a' ≤ d ∧ d ≤ 'z') || ('A' ≤ d ∧ d ≤ 'Z')
       | none => false)) none line

/-- `(?i)\b<word>\b`: the word with boundaries on both sides. -/
def wordAlone (word : Content) (line : Content) : Bool :=
  anywherePrev (fun prev l =>
    atBoundary prev && prefixCI word l &&
      (match (l.drop word.length).head? with
       | some c => !wordChar c
       | none => true)) none line

/-- `(?i)^\s*<word>\s+`: leading whitespace, the word, one or more
whitespace bytes. -/
def wsWordThenWSCI (word : Content) (l : Content) : Bool :=
  let t := l.dropWhile isspace
  prefixCI word t &&
    (match (t.drop word.length).head? with
     | some c => isspace c
     | none => false)

/-- `(?i)end\.\s*$`: `end.` followed only by whitespace to the end. -/
def endDotMatch (l : Content) : Bool :=
  anywhere (fun l2 =>
    prefixCI "end.".toList l2 && (l2.drop 4).all isspace) l

/-- Per-line state of `really_is_pascal`. -/
structure PascalVState where
  has_program : Bool
  has_unit : Bool
  has_module : Bool
  has_procedure_or_function : Bool
  has_begin : Bool
  found_terminating_end : Bool
deriving Repr, DecidableEq

/-- One line of `really_is_pascal` (loccount.go lines 853-894).  The two
`ctx.drop` calls meant to erase `{...}` and `(*...*)` comments do not write
back to `ctx.line` (`drop` only returns whether the replacement result is
non-nil), so the tests run on the unmodified line. -/
def pascalVLine (st : PascalVState) (line : Content) : PascalVState :=
  { has_program := st.has_program || wordThenName "program".toList line
    has_unit := st.has_unit || wordThenName "unit".toList line
    has_module := st.has_module || wordThenName "module".toList line
    has_procedure_or_function := st.has_procedure_or_function ||
      wordAlone "procedure".toList line || wordAlone "function".toList line ||
      wsWordThenWSCI "interface".toList line ||
      wsWordThenWSCI "implementation".toList line
    has_begin := st.has_begin || wordAlone "begin".toList line
    found_terminating_end := st.found_terminating_end || endDotMatch line }

/-- `really_is_pascal`. -/
def really_is_pascal (content : Content) : Bool :=
  let st := (completeLines content).foldl pascalVLine
    ⟨false, false, false, false, false, false⟩
  ((st.has_unit || st.has_program) && st.has_procedure_or_function &&
    st.has_begin && st.found_terminating_end) ||
  (st.has_module && st.found_terminating_end) ||
  (st.has_program && st.has_begin && st.found_terminating_end)

/-! ### The rule tables (built in `init`) -/

/-- The `genericLanguages` table, transcribed row for row. -/
def genericLanguages : List GenLang := [
  ⟨"c", ".c".toList, "/*".toList, "*/".toList, "//".toList, [], true, none⟩,
  ⟨"c-header", ".h".toList, "/*".toList, "*/".toList, "//".toList, [], true, none⟩,
  ⟨"c-header", ".hpp".toList, "/*".toList, "*/".toList, "//".toList, [], true, none⟩,
  ⟨"c-header", ".hxx".toList, "/*".toList, "*/".toList, "//".toList, [], true, none⟩,
  ⟨"yacc", ".y".toList, "/*".toList, "*/".toList, "//".toList, [], true, none⟩,
  ⟨"lex", ".l".toList, "/*".toList, "*/".toList, "//".toList, [], true, some really_is_lex⟩,
  ⟨"c++", ".cpp".toList, "/*".toList, "*/".toList, "//".toList, [], true, none⟩,
  ⟨"c++", ".cxx".toList, "/*".toList, "*/".toList, "//".toList, [], true, none⟩,
  ⟨"c++", ".cc".toList, "/*".toList, "*/".toList, "//".toList, [], true, none⟩,
  ⟨"java", ".java".toList, "/*".toList, "*/".toList, "//".toList, [], true, none⟩,
  ⟨"javascript", ".js".toList, "/*".toList, "*/".toList, "//".toList, [], true, none⟩,
  ⟨"obj-c", ".m".toList, "/*".toList, "*/".toList, "//".toList, [], true, some really_is_objc⟩,
  ⟨"c#", ".cs".toList, "/*".toList, "*/".toList, "//".toList, [], true, none⟩,
  ⟨"php", ".php".toList, "/*".toList, "*/".toList, "//".toList, [], true, none⟩,
  ⟨"php3", ".php".toList, "/*".toList, "*/".toList, "//".toList, [], true, none⟩,
  ⟨"php4", ".php".toList, "/*".toList, "*/".toList, "//".toList, [], true, none⟩,
  ⟨"php5", ".php".toList, "/*".toList, "*/".toList, "//".toList, [], true, none⟩,
  ⟨"php6", ".php".toList, "/*".toList, "*/".toList, "//".toList, [], true, none⟩,
  ⟨"php7", ".php".toList, "/*".toList, "*/".toList, "//".toList, [], true, none⟩,
  ⟨"go", ".go".toList, "/*".toList, "*/".toList, "//".toList, "`".toList, true, none⟩,
  ⟨"swift", ".swift".toList, "/*".toList, "*/".toList, "//".toList, [], true, none⟩,
  ⟨"sql", ".sql".toList, "/*".toList, "*/".toList, "--".toList, [], false, none⟩,
  ⟨"haskell", ".hs".toList, ['{', '-'], ['-', '}'], "--".toList, [], true, none⟩,
  ⟨"pl/1", ".pl1".toList, "/*".toList, "*/".toList, [], [], true, none⟩,
  ⟨"asm", ".asm".toList, [], [], ";".toList, [], true, none⟩,
  ⟨"asm", ".s".toList, [], [], ";".toList, [], true, none⟩,
  ⟨"asm", ".S".toList, [], [], ";".toList, [], true, none⟩,
  ⟨"ada", ".ada".toList, [], [], "--".toList, [], true, none⟩,
  ⟨"ada", ".adb".toList, [], [], "--".toList, [], true, none⟩,
  ⟨"ada", ".ads".toList, [], [], "--".toList, [], true, none⟩,
  ⟨"ada", ".pad".toList, [], [], "--".toList, [], true, none⟩,
  ⟨"css", ".css".toList, "/*".toList, "*/".toList, [], [], true, none⟩,
  ⟨"makefile", ".mk".toList, [], [], "#".toList, [], true, none⟩,
  ⟨"makefile", "Makefile".toList, [], [], "#".toList, [], true, none⟩,
  ⟨"makefile", "makefile".toList, [], [], "#".toList, [], true, none⟩,
  ⟨"makefile", "Imakefile".toList, [], [], "#".toList, [], true, none⟩,
  ⟨"m4", ".m4".toList, [], [], "#".toList, [], true, none⟩,
  ⟨"lisp", ".lisp".toList, [], [], ";".toList, [], true, none⟩,
  ⟨"lisp", ".lsp".toList, [], [], ";".toList, [], true, none⟩,
  ⟨"lisp", ".cl".toList, [], [], ";".toList, [], true, none⟩,
  ⟨"lisp", ".l".toList, [], [], ";".toList, [], true, none⟩,
  ⟨"scheme", ".scm".toList, [], [], ";".toList, [], true, none⟩,
  ⟨"elisp", ".el".toList, [], [], ";".toList, [], true, none⟩,
  ⟨"clojure", ".clj".toList, [], [], ";".toList, [], true, none⟩,
  ⟨"clojure", ".cljc".toList, [], [], ";".toList, [], true, none⟩,
  ⟨"clojurescript", ".cljs".toList, [], [], ";".toList, [], true, none⟩,
  ⟨"cobol", ".CBL".toList, [], [], "*".toList, [], true, none⟩,
  ⟨"cobol", ".cbl".toList, [], [], "*".toList, [], true, none⟩,
  ⟨"cobol", ".COB".toList, [], [], "*".toList, [], true, none⟩,
  ⟨"cobol", ".cob".toList, [], [], "*".toList, [], true, none⟩,
  ⟨"eiffel", ".e".toList, [], [], "--".toList, [], true, none⟩,
  ⟨"sather", ".sa".toList, [], [], "--".toList, [], true, some really_is_sather⟩,
  ⟨"lua", ".lua".toList, [], [], "--".toList, [], true, none⟩,
  ⟨"clu", ".clu".toList, [], [], "%".toList, [], true, none⟩,
  ⟨"rust", ".rs".toList, [], [], "//".toList, [], true, none⟩,
  ⟨"rust", ".rlib".toList, [], [], "//".toList, [], true, none⟩,
  ⟨"erlang", ".erl".toList, [], [], "%".toList, [], true, none⟩,
  ⟨"d", ".d".toList, [], [], "//".toList, [], true, none⟩,
  ⟨"occam", ".f".toList, [], [], "//".toList, [], true, some really_is_occam⟩,
  ⟨"prolog", ".pl".toList, [], [], "%".toList, [], true, some really_is_prolog⟩,
  ⟨"mumps", ".m".toList, [], [], ";".toList, [], true, none⟩,
  ⟨"pop11", ".p".toList, [], [], ";".toList, [], true, some really_is_pop11⟩,
  ⟨"autotools", "config.h.in".toList, "/*".toList, "*/".toList, "//".toList, [], true, none⟩,
  ⟨"autotools", "autogen.sh".toList, [], [], "#".toList, [], true, none⟩,
  ⟨"autotools", "configure.in".toList, [], [], "#".toList, [], true, none⟩,
  ⟨"autotools", "Makefile.in".toList, [], [], "#".toList, [], true, none⟩,
  ⟨"autotools", ".am".toList, [], [], "#".toList, [], true, none⟩,
  ⟨"autotools", ".ac".toList, [], [], "#".toList, [], true, none⟩,
  ⟨"autotools", ".mf".toList, [], [], "#".toList, [], true, none⟩,
  ⟨"scons", "SConstruct".toList, [], [], "#".toList, [], true, none⟩]

/-- A row of the `scriptingLanguages` table.  Its verifier field is never
consulted by `Generic` (the scripting counter is invoked with a nil
verifier). -/
structure ScriptLang where
  name : String
  suffix : Content
  hashbang : Content
  verifier : Option (Content → Bool)

/-- The `scriptingLanguages` table. -/
def scriptingLanguages : List ScriptLang := [
  ⟨"tcl", ".tcl".toList, "tcl".toList, none⟩,
  ⟨"tcl", ".tcl".toList, "wish".toList, none⟩,
  ⟨"csh", ".csh".toList, "csh".toList, none⟩,
  ⟨"shell", ".sh".toList, "sh".toList, none⟩,
  ⟨"ruby", ".rb".toList, "ruby".toList, none⟩,
  ⟨"awk", ".awk".toList, "awk".toList, none⟩,
  ⟨"sed", ".sed".toList, "sed".toList, none⟩,
  ⟨"expect", ".exp".toList, "expect".toList, some really_is_expect⟩]

/-- The `pascalLikes` table. -/
def pascalLikes : List PascalLike := [
  ⟨"pascal", ".pas".toList, true, none⟩,
  ⟨"pascal", ".p".toList, true, some really_is_pascal⟩,
  ⟨"pascal", ".inc".toList, true, some really_is_pascal⟩,
  ⟨"modula3", ".i3".toList, false, none⟩,
  ⟨"modula3", ".m3".toList, false, none⟩,
  ⟨"modula3", ".ig".toList, false, none⟩,
  ⟨"modula3", ".mg".toList, false, none⟩,
  ⟨"ml", ".ml".toList, false, none⟩,
  ⟨"mli", ".ml".toList, false, none⟩,
  ⟨"mll", ".ml".toList, false, none⟩,
  ⟨"mly", ".ml".toList, false, none⟩,
  ⟨"oberon", ".mod".toList, false, none⟩]

/-- `^([ \t]*!|[ \t]*$)`: either optional blanks then `!`, or blanks up to
the very end of the line's bytes.  A `munchline` line ends with `\n`, which
`$` (end of text, no multiline flag) does not skip, so the second
alternative never matches a newline-terminated blank line. -/
def f90comment (l : Content) : Bool :=
  ((l.dropWhile (fun c => c = ' ' || c = '\t')).head? = some '!') ||
    l.all (fun c => c = ' ' || c = '\t')

/-- `^[ \t]*!(hpf|omp)[$]` (the final `[$]` is a literal dollar byte). -/
def f90nocomment (l : Content) : Bool :=
  match l.dropWhile (fun c => c = ' ' || c = '\t') with
  | '!' :: r => goHasPrefix r "hpf$".toList || goHasPrefix r "omp$".toList
  | _ => false

/-- `^([c*!]|[ \t]+!|[ \t]*$)`. -/
def f77comment (l : Content) : Bool :=
  (match l.head? with
   | some c => c = 'c' || c = '*' || c = '!'
   | none => false) ||
  (match l with
   | c :: _ => (c = ' ' || c = '\t') &&
       ((l.dropWhile (fun c2 => c2 = ' ' || c2 = '\t')).head? = some '!')
   | [] => false) ||
  l.all (fun c => c = ' ' || c = '\t')

/-- `^[c*!](hpf|omp)[$]`. -/
def f77nocomment (l : Content) : Bool :=
  match l with
  | c :: r => (c = 'c' || c = '*' || c = '!') &&
      (goHasPrefix r "hpf$".toList || goHasPrefix r "omp$".toList)
  | [] => false

/-- The `fortranLikes` table. -/
def fortranLikes : List FortranLike := [
  ⟨"fortran90", ".f90".toList, f90comment, f90nocomment⟩,
  ⟨"fortran", ".f77".toList, f77comment, f77nocomment⟩,
  ⟨"fortran", ".f".toList, f77comment, f77nocomment⟩]

/-! ### Files, hashbang, and the classifier `Generic`

A file is its `os.Stat` mode bits and its byte content; `content = none`
models a file whose `os.Open` fails.  `countContext.setup` logs that failure
and returns `false`, but every caller ignores the return value and goes on
to read through the nil `bufio.Reader`, which panics; a panic is modelled as
the `none` result of an `Option`-valued function. -/

/-- A file as seen by `Generic`: stat mode bits and openable content. -/
structure GoFile where
  mode : Nat
  content : Option Content

/-- The record produced per file (`SourceStat`); `Generic` leaves `Path`
empty, the caller fills it in. -/
structure SourceStat where
  Path : String
  Language : String
  SLOC : Nat
deriving Repr, DecidableEq

/-- The zero `SourceStat`. -/
def zeroStat : SourceStat := ⟨"", "", 0⟩

/-- `bufio.ReadString('\n')`: the first line including its newline, or
`none` (an error) when the file has no newline at all. -/
def firstLineThroughNL (c : Content) : Option Content :=
  if '\n' ∈ c then some (c.takeWhile (· ≠ '\n') ++ ['\n']) else none

/-- `hashbang(ctx, path, langname)`: requires some execute bit in
`Mode()&01111` (files handed to `Generic` were stat-able, so the stat error
path is not modelled), then reads the first line and tests for `#!` and the
interpreter name.  On an unopenable file the read panics (`none`). -/
def hashbangM (f : GoFile) (langname : Content) : Option Bool :=
  if f.mode &&& 0o1111 = 0 then some false
  else
    match f.content with
    | none => none
    | some c =>
      some (match firstLineThroughNL c with
        | none => false
        | some s => goHasPrefix s "#!".toList && goContains s langname)

/-- `was_generated_automatically` through the panic layer. -/
def wasGeneratedM (oc : Option Content) (eol : Content) : Option Bool :=
  oc.map (wasGenerated eol)

/-- The count a `genericLanguages` row produces: C-family scan when the row
has a block-comment leader, plain winged-comment scan otherwise.  The second
component is the context's `lexfile` flag after the call (only the C-family
scanner touches it). -/
def ruleCount (lang : GenLang) (lex : Bool) (c : Content) : Nat × Bool :=
  if lang.commentleader ≠ [] then c_family_counter lang lex c
  else (genericCount lang.eolcomment lang.verifier c, lex)

/-- Outcome of walking one rule table inside `Generic`. -/
inductive GLoopOut where
  | panicked : GLoopOut
  | finished : SourceStat → GLoopOut
  | fell : Bool → GLoopOut
deriving Repr, DecidableEq

/-- The `genericLanguages` loop of `Generic` (loccount.go lines 1351-1367):
on a suffix match, first the generated-file filter (an immediate zero record
when it fires), then the row's counter; a nonzero count finishes with the
row's language.  The `lexfile` flag lives in the `countContext` shared by
all the rows of one classification, so it is threaded through. -/
def genericTableLoop (path : Content) (f : GoFile) :
    List GenLang → Bool → GLoopOut
  | [], lex => .fell lex
  | lang :: rest, lex =>
    if goHasSuffix path lang.suffix then
      match wasGeneratedM f.content lang.eolcomment with
      | none => .panicked
      | some true => .finished zeroStat
      | some false =>
        match f.content with
        | none => .panicked
        | some c =>
          match ruleCount lang lex c with
          | (n, lex2) =>
            if 0 < n then .finished ⟨"", lang.name, n⟩
            else genericTableLoop path f rest lex2
    else genericTableLoop path f rest lex

/-- The `scriptingLanguages` loop (loccount.go lines 1396-1406): the
generated-file filter runs at the top of every iteration, before the
suffix/hashbang test; a match returns the record unconditionally, counting
with the `#` leader and no verifier. -/
def scriptingLoop (path : Content) (f : GoFile) : List ScriptLang → GLoopOut
  | [] => .fell false
  | lang :: rest =>
    match wasGeneratedM f.content ['#'] with
    | none => .panicked
    | some true => .finished zeroStat
    | some false =>
      match (if goHasSuffix path lang.suffix then some true
             else hashbangM f lang.hashbang) with
      | none => .panicked
      | some true =>
        match f.content with
        | none => .panicked
        | some c => .finished ⟨"", lang.name, genericCount ['#'] none c⟩
      | some false => scriptingLoop path f rest

/-- Outcome of the `pascalLikes` / `fortranLikes` loops, which assign
`stat.Language` and `stat.SLOC` on every suffix match and fall through with
that record when the count is zero. -/
inductive PLoopOut where
  | panicked : PLoopOut
  | finished : SourceStat → PLoopOut
  | fell : SourceStat → PLoopOut
deriving Repr, DecidableEq

/-- The `pascalLikes` loop (loccount.go lines 1408-1417). -/
def pascalLoop (path : Content) (f : GoFile) :
    List PascalLike → SourceStat → PLoopOut
  | [], st => .fell st
  | lang :: rest, st =>
    if goHasSuffix path lang.suffix then
      match f.content with
      | none => .panicked
      | some c =>
        let st2 : SourceStat := ⟨st.Path, lang.name, pascalCount lang c⟩
        if 0 < st2.SLOC then .finished st2 else pascalLoop path f rest st2
    else pascalLoop path f rest st

/-- The `fortranLikes` loop (loccount.go lines 1419-1428). -/
def fortranLoop (path : Content) (f : GoFile) :
    List FortranLike → SourceStat → PLoopOut
  | [], st => .fell st
  | lang :: rest, st =>
    if goHasSuffix path lang.suffix then
      match f.content with
      | none => .panicked
      | some c =>
        let st2 : SourceStat := ⟨st.Path, lang.name, fortranCount lang c⟩
        if 0 < st2.SLOC then .finished st2 else fortranLoop path f rest st2
    else fortranLoop path f rest st

/-- `filepath.Base` restricted to slash-separated paths. -/
def goBase (p : Content) : Content :=
  if p = [] then ['.']
  else
    let t := (p.reverse.dropWhile (· = '/')).reverse
    if t = [] then ['/']
    else (t.reverse.takeWhile (· ≠ '/')).reverse

/-- `Generic` (loccount.go lines 1335-1431): the generic table, the
python/perl/wscript special cases, the scripting table, then the Pascal and
Fortran tables; `none` models a Go panic (possible exactly when the file is
unopenable). -/
def Generic (path : Content) (f : GoFile) : Option SourceStat :=
  match genericTableLoop path f genericLanguages false with
  | .panicked => none
  | .finished st => some st
  | .fell _lex =>
    match (if goHasSuffix path ".py".toList then some true
           else hashbangM f "python".toList) with
    | none => none
    | some true =>
      match wasGeneratedM f.content ['#'] with
      | none => none
      | some true => some zeroStat
      | some false =>
        match f.content with
        | none => none
        | some c => some ⟨"", "python", pythonCount c⟩
    | some false =>
      match (if goHasSuffix path ".pl".toList || goHasSuffix path ".pm".toList
              || goHasSuffix path ".ph".toList then some true
             else hashbangM f "perl".toList) with
      | none => none
      | some true =>
        match wasGeneratedM f.content ['#'] with
        | none => none
        | some true => some zeroStat
        | some false =>
          match f.content with
          | none => none
          | some c => some ⟨"", "perl", perlCount c⟩
      | some false =>
        if goBase path = "wscript".toList then
          match wasGeneratedM f.content ['#'] with
          | none => none
          | some true => some zeroStat
          | some false =>
            match f.content with
            | none => none
            | some c => some ⟨"", "waf", pythonCount c⟩
        else
          match scriptingLoop path f scriptingLanguages with
          | .panicked => none
          | .finished st => some st
          | .fell _ =>
            match pascalLoop path f pascalLikes zeroStat with
            | .panicked => none
            | .finished st => some st
            | .fell st1 =>
              match fortranLoop path f fortranLikes st1 with
              | .panicked => none
              | .finished st => some st
              | .fell st2 => some st2

/-! ### The walker's first-error latch -/

/-- The error slot of `WalkState` (the walk function, queue, and waitgroup
carry no specification weight for the latch; the reader/writer lock
serializes `setTerminated` bodies, so the latch logic itself is
sequential). -/
structure WalkState where
  firstError : Option String
deriving Repr, DecidableEq

/-- `WalkState.setTerminated`: only the first error is retained. -/
def setTerminated (ws : WalkState) (err : String) : WalkState :=
  if ws.firstError = none then { ws with firstError := some err } else ws

/-! ## Theorems -/

/-- C2: for a Python file whose entire content is the three lines `"""` /
`Docstring.` / `"""` (opening triple-quote at line start, hence a comment),
`pythonCounter` returns SLOC = 0; with the first line `x = """` (opening
marker after other text, hence data) it returns SLOC = 3. -/
theorem python_docstring_comment_vs_data :
    pythonCount ("\"\"\"\nDocstring.\n\"\"\"\n".toList) = 0 ∧
    pythonCount ("x = \"\"\"\nDocstring.\n\"\"\"\n".toList) = 3 := by
  constructor <;> rfl

/-- C4 counterexample: after the here-document opener `print <<EOF;` the
terminator `EOF` is active, and a blank interior line of the here document
leaves the count unchanged — it is not counted as code, refuting the claim
that every interior line of a here document is counted. -/
theorem perl_blank_heredoc_interior_line_not_counted :
    (perlStep ⟨[], false, 0⟩ ("print <<EOF;\n".toList)).1
        = ⟨"EOF".toList, false, 1⟩ ∧
    perlStep ⟨"EOF".toList, false, 1⟩ ("\n".toList)
        = (⟨"EOF".toList, false, 1⟩, false) := by
  constructor <;> rfl

/-- C4 (amended): in `perlCounter`, (a) every line processed while inside a
POD block contributes 0; (b) a POD opening command line (`=` + letter, no
active here document, not `=cut`, no here-document opener on the line)
contributes 0 and enters the block; (c) an `=cut` line with no active here
document contributes 0 and leaves the block; (d) an interior line of an
active here document that does not begin with the terminator, is nonblank
after comment-stripping and trimming, and does not begin with `__END__`, is
counted as code and does not enter a POD block — even when it textually
resembles a POD command line. -/
theorem perl_pod_blocks_and_heredocs (s : PerlState) (line : Content) :
    (s.isinpod = true → (perlStep s line).1.sloc = s.sloc) ∧
    (s.heredoc = [] →
      podheaderMatch (trimWS (truncBefore ['#'] line)) →
      ¬ goHasPrefix (trimWS (truncBefore ['#'] line)) ['=', 'c', 'u', 't'] →
      fromFirst ['<', '<'] (trimWS (truncBefore ['#'] line)) = none →
      perlStep s line = ({ s with isinpod := true }, false)) ∧
    (s.heredoc = [] →
      goHasPrefix (trimWS (truncBefore ['#'] line)) ['=', 'c', 'u', 't'] →
      fromFirst ['<', '<'] (trimWS (truncBefore ['#'] line)) = none →
      perlStep s line = ({ s with isinpod := false }, false)) ∧
    (s.heredoc ≠ [] → s.isinpod = false →
      ¬ goHasPrefix (trimWS (truncBefore ['#'] line)) s.heredoc →
      trimWS (truncBefore ['#'] line) ≠ [] →
      ¬ goHasPrefix (trimWS (truncBefore ['#'] line)) ['_', '_', 'E', 'N', 'D', '_', '_'] →
      (perlStep s line).1.sloc = s.sloc + 1 ∧
        (perlStep s line).1.isinpod = false) := by
  refine ⟨?_, ?_, ?_, ?_⟩
  · intro hpod
    unfold perlStep
    dsimp only
    split
    · simp [hpod]
    · rcases hf : fromFirst ['<', '<'] (trimWS (truncBefore ['#'] line)) with _ | t <;>
        simp only [hf]
      · split
        · simp
        · split
          · simp [hpod]
          · split
            · simp
            · simp [hpod]
      · simp [hpod]
  · intro hh hpm hcut hlt
    unfold perlStep
    dsimp only
    rw [if_neg (by simp [hh]), hlt, if_neg (by simp [hcut]), if_pos ⟨hh, hpm⟩]
    simp
  · intro hh hcut hlt
    unfold perlStep
    dsimp only
    rw [if_neg (by simp [hh]), hlt, if_pos ⟨hh, hcut⟩]
  · intro hh hpod hnt hne hend
    unfold perlStep
    dsimp only
    rw [if_neg (by simp [hnt])]
    rcases hf : fromFirst ['<', '<'] (trimWS (truncBefore ['#'] line)) with _ | t <;>
      simp only [hf]
    · rw [if_neg (by simp [hh]), if_neg (by simp [hh]), if_neg (by simpa using hend)]
      simp [hpod, hne]
    · simp [hpod, hne]

/-- C4 witness: the amended theorem applied at concrete inputs — a POD
command line while a here document is open (clause d: counted, POD not
entered), and a line inside a POD block (clause a: contributes 0). -/
theorem perl_pod_blocks_and_heredocs_witness :
    ((perlStep ⟨"EOF".toList, false, 3⟩ ("=pod\n".toList)).1.sloc = 4 ∧
      (perlStep ⟨"EOF".toList, false, 3⟩ ("=pod\n".toList)).1.isinpod = false) ∧
    (perlStep ⟨[], true, 7⟩ ("print 1;\n".toList)).1.sloc = 7 := by
  refine ⟨?_, ?_⟩
  · exact (perl_pod_blocks_and_heredocs ⟨"EOF".toList, false, 3⟩
      ("=pod\n".toList)).2.2.2 (by decide) rfl (by decide) (by decide) (by decide)
  · exact (perl_pod_blocks_and_heredocs ⟨[], true, 7⟩
      ("print 1;\n".toList)).1 rfl


/-- Helper: the last element of a list is a member. -/
theorem mem_of_getLast?_eq {l : Content} {c : Char} (h : l.getLast? = some c) :
    c ∈ l := by
  rcases List.mem_getLast?_eq_getLast (show c ∈ l.getLast? by simp [h]) with
    ⟨hne, heq⟩
  rw [heq]
  exact List.getLast_mem hne

/-- Helper: a nonempty file has at least one physical line. -/
theorem plines_pos {l : Content} (hl : l ≠ []) : 1 ≤ plines l := by
  unfold plines
  rcases hlast : l.getLast? with _ | c
  · rw [List.getLast?_eq_none_iff] at hlast; exact absurd hlast hl
  · rcases eq_or_ne c '\n' with rfl | hc
    · have : 0 < nlcount l := by
        rw [nlcount, List.countP_pos_iff]
        exact ⟨'\n', mem_of_getLast?_eq hlast, by simp⟩
      omega
    · rw [if_pos (by exact ⟨hl, by simpa using hc⟩)]
      omega

/-- Helper: a pending line at EOF is within the cap. -/
theorem bval_le_cap (nb : Bool) (l : Content) :
    (if nb then 1 else 0) ≤ cap nb l := by
  unfold cap
  rcases eq_or_ne l [] with rfl | hl
  · simp
  · rw [if_neg hl]
    have := plines_pos hl
    split <;> omega

/-- Helper: newline count is monotone under suffix. -/
theorem nlcount_suffix_le {rem l : Content} (h : rem <:+ l) :
    nlcount rem ≤ nlcount l :=
  List.Sublist.countP_le _ h.sublist

/-- Helper: a nonempty suffix determines the last element. -/
theorem getLast?_of_suffix {rem l : Content} (h : rem <:+ l) (hne : rem ≠ []) :
    l.getLast? = rem.getLast? := by
  rcases h with ⟨pre, rfl⟩
  exact List.getLast?_append_of_ne_nil pre hne

/-- Helper: physical lines are monotone under suffix. -/
theorem plines_suffix_le {rem l : Content} (h : rem <:+ l) :
    plines rem ≤ plines l := by
  rcases eq_or_ne rem [] with rfl | hne
  · simp [plines, nlcount]
  · have hl : l ≠ [] := by
      rintro rfl
      exact hne (List.suffix_nil.mp h)
    have hlast := getLast?_of_suffix h hne
    have hc := nlcount_suffix_le h
    unfold plines
    rw [hlast]
    by_cases he : rem.getLast? = some '\n'
    · rw [if_neg (by simp [he]), if_neg (by simp [he])]
      omega
    · rw [if_pos (by exact ⟨hne, he⟩), if_pos (by exact ⟨hl, he⟩)]
      omega

/-- Helper: the cap is monotone when input is consumed. -/
theorem cap_le {rem l : Content} (nb nb2 : Bool) (h : rem <:+ l) (hl : l ≠ []) :
    cap nb2 rem ≤ cap nb l := by
  unfold cap
  rw [if_neg hl]
  rcases eq_or_ne rem [] with rfl | hne
  · rw [if_pos rfl]
    have := plines_pos hl
    split <;> omega
  · rw [if_neg hne]
    exact plines_suffix_le h

/-- Helper: consuming up to a newline pays for one counted line. -/
theorem cap_newline {rem l : Content} (nb : Bool) (h : ('\n' :: rem) <:+ l) :
    1 + cap false rem ≤ cap nb l := by
  have hl : l ≠ [] := by
    rintro rfl
    simpa using List.suffix_nil.mp h
  unfold cap
  rw [if_neg hl]
  rcases eq_or_ne rem [] with rfl | hne
  · rw [if_pos rfl]
    have hlast : l.getLast? = some '\n' := by
      rw [getLast?_of_suffix h (by simp)]; rfl
    have hnl : 0 < nlcount l := by
      rw [nlcount, List.countP_pos_iff]
      exact ⟨'\n', h.sublist.subset (by simp), by simp⟩
    unfold plines
    rw [hlast, if_neg (by simp)]
    omega
  · rw [if_neg hne]
    have h2 : rem <:+ l := (List.suffix_cons '\n' rem).trans h
    have hlast := getLast?_of_suffix h2 hne
    have h3 : nlcount ('\n' :: rem) ≤ nlcount l := nlcount_suffix_le h
    have h4 : nlcount ('\n' :: rem) = nlcount rem + 1 := by
      simp [nlcount, List.countP_cons]
    unfold plines
    rw [hlast]
    by_cases he : rem.getLast? = some '\n'
    · rw [if_neg (by simp [he]), if_neg (by simp [he])]
      omega
    · rw [if_pos (by exact ⟨hne, he⟩), if_pos (by exact ⟨hl, he⟩)]
      omega

/-- Helper: consuming a newline and the following `%` pays for the counted
line and the `%` line marked nonblank. -/
theorem cap_newline_pct {rem l : Content} (nb : Bool)
    (h : ('\n' :: '%' :: rem) <:+ l) : 1 + cap true rem ≤ cap nb l := by
  have hl : l ≠ [] := by
    rintro rfl
    simpa using List.suffix_nil.mp h
  unfold cap
  rw [if_neg hl]
  rcases eq_or_ne rem [] with rfl | hne
  · rw [if_pos rfl]
    have hlast : l.getLast? = some '%' := by
      rw [getLast?_of_suffix h (by simp)]; rfl
    have hnl : 0 < nlcount l := by
      rw [nlcount, List.countP_pos_iff]
      exact ⟨'\n', h.sublist.subset (by simp), by simp⟩
    unfold plines
    rw [hlast]
    rw [if_pos (show l ≠ [] ∧ (some '%' : Option Char) ≠ some '\n' from
      ⟨hl, by simp⟩)]
    simp only [if_pos rfl, reduceIte]
    omega
  · rw [if_neg hne]
    have h2 : rem <:+ l :=
      ((List.suffix_cons '%' rem).trans (List.suffix_cons '\n' _)).trans h
    have hlast := getLast?_of_suffix h2 hne
    have h3 : nlcount ('\n' :: '%' :: rem) ≤ nlcount l := nlcount_suffix_le h
    have h4 : nlcount ('\n' :: '%' :: rem) = nlcount rem + 1 := by
      simp [nlcount, List.countP_cons]
    unfold plines
    rw [hlast]
    by_cases he : rem.getLast? = some '\n'
    · rw [if_neg (by simp [he]), if_neg (by simp [he])]
      omega
    · rw [if_pos (by exact ⟨hne, he⟩), if_pos (by exact ⟨hl, he⟩)]
      omega

/-- Helper: the char-literal scan only consumes input, and reports a newline
only when it consumed one. -/
theorem charlitScan_spec (l : Content) :
    (charlitScan l).2 <:+ l ∧
      ((charlitScan l).1 = '\n' → ('\n' :: (charlitScan l).2) <:+ l) := by
  induction l with
  | nil =>
    refine ⟨List.nil_suffix, ?_⟩
    intro h
    exact absurd h (by decide)
  | cons x xs ih =>
    unfold charlitScan
    split
    · refine ⟨List.suffix_cons x xs, ?_⟩
      intro h1
      have hx : x = '\n' := h1
      subst hx
      exact List.suffix_refl _
    · exact ⟨ih.1.trans (List.suffix_cons x xs),
        fun h => (ih.2 h).trans (List.suffix_cons x xs)⟩

/-- Helper: the full char-literal consumption only consumes input, and
reports a newline only when it consumed one. -/
theorem charlitConsume_spec (l : Content) :
    (charlitConsume l).2 <:+ l ∧
      ((charlitConsume l).1 = '\n' → ('\n' :: (charlitConsume l).2) <:+ l) := by
  unfold charlitConsume
  match l with
  | [] =>
    refine ⟨List.nil_suffix, ?_⟩
    intro h
    exact absurd h (by decide)
  | a :: r =>
    have hsub : (if a = '\\' then r.tail else r) <:+ (a :: r) := by
      split
    
      · exact (List.tail_suffix r).trans (List.suffix_cons a r)
      · exact List.suffix_cons a r
    have h := charlitScan_spec (if a = '\\' then r.tail else r)
    exact ⟨h.1.trans hsub, fun hc => (h.2 hc).trans hsub⟩

/-- Helper: the mode dispatch never changes the count, only consumes input,
and leaves a rebound newline only when the input began at or passed one. -/
theorem cfamDispatch_spec (g : GenLang) (s : CState) (c : Char)
    (rest : Content) :
    ((cfamDispatch g s c rest).1).sloc = s.sloc ∧
    (cfamDispatch g s c rest).2.2 <:+ rest ∧
    ((cfamDispatch g s c rest).2.1 = '\n' →
      ('\n' :: (cfamDispatch g s c rest).2.2) <:+ (c :: rest)) := by
  have hid : ∀ rest2 : Content, rest2 = rest →
      ((c = '\n') → ('\n' :: rest2) <:+ (c :: rest)) := by
    rintro rest2 rfl rfl
    exact List.suffix_refl _
  have hhead : ∀ a : Char, rest.head? = some a → a = '\n' →
      ('\n' :: rest.tail) <:+ (c :: rest) := by
    rintro a hh rfl
    rcases rest with _ | ⟨r0, rt⟩
    · simp at hh
    · simp at hh
      rw [show (r0 :: rt).tail = rt from rfl, show ('\n' : Char) = r0 from hh.symm]
      exact List.suffix_cons c (r0 :: rt)
  rcases s with ⟨m, ct, nb, lx, sl⟩
  unfold cfamDispatch
  cases m <;> dsimp only
  case NORMAL =>
    split
    · exact ⟨rfl, List.suffix_refl _, hid rest rfl⟩
    · split
      · rcases hcc : charlitConsume rest with ⟨cc, rr⟩
        have h := charlitConsume_spec rest
        rw [hcc] at h
        exact ⟨rfl, h.1, fun hc => (h.2 hc).trans (List.suffix_cons c rest)⟩
      · split
        · rename_i hcond
          exact ⟨rfl, List.tail_suffix rest, hhead _ hcond.2⟩
        · split
          · rename_i hcond
            exact ⟨rfl, List.tail_suffix rest, hhead _ hcond.2.2.2⟩
          · split
            · exact ⟨rfl, List.suffix_refl _, hid rest rfl⟩
            · split
              · exact ⟨rfl, List.suffix_refl _, hid rest rfl⟩
              · exact ⟨rfl, List.suffix_refl _, hid rest rfl⟩
  case INSTRING =>
    have hsl : (if ¬isspace c = true then
        ({ mode := CfMode.INSTRING, ctype := ct, nonblank := true,
           lexfile := lx, sloc := sl } : CState)
      else ⟨CfMode.INSTRING, ct, nb, lx, sl⟩).sloc = sl := by
      split <;> rfl
    split
    · exact ⟨hsl, List.suffix_refl _, hid rest rfl⟩
    · split
      · rename_i hcond
        refine ⟨hsl, List.tail_suffix rest, ?_⟩
        intro hc
        rcases rest with _ | ⟨r0, rt⟩
        · dsimp only at hc
          exact absurd hc (by decide)
        · dsimp only at hc
          simp only [List.headD_cons] at hc
          rcases hcond.2 with hh | hh <;> simp only [List.head?_cons,
              Option.some_inj] at hh <;> rw [hh] at hc <;>
            exact absurd hc (by decide)
      · split
        · rename_i hcond
          exact ⟨hsl, List.tail_suffix rest, hhead _ hcond.2⟩
        · exact ⟨hsl, List.suffix_refl _, hid rest rfl⟩
  case INMULTISTRING =>
    have hsl : (if ¬isspace c = true then
        ({ mode := CfMode.INMULTISTRING, ctype := ct, nonblank := true,
           lexfile := lx, sloc := sl } : CState)
      else ⟨CfMode.INMULTISTRING, ct, nb, lx, sl⟩).sloc = sl := by
      split <;> rfl
    split
    · exact ⟨hsl, List.suffix_refl _, hid rest rfl⟩
    · exact ⟨hsl, List.suffix_refl _, hid rest rfl⟩
  case INCOMMENT =>
    have hsl : (if c = '\n' ∧ ct = CfComment.TRAILING then
        ({ mode := CfMode.NORMAL, ctype := ct, nonblank := nb,
           lexfile := lx, sloc := sl } : CState)
      else ⟨CfMode.INCOMMENT, ct, nb, lx, sl⟩).sloc = sl := by
      split <;> rfl
    split
    · rename_i hcond
      exact ⟨hsl, List.tail_suffix rest, hhead _ hcond.2.2⟩
    · exact ⟨hsl, List.suffix_refl _, hid rest rfl⟩

/-- Helper: `cap` with no pending line is exactly the physical line count. -/
theorem cap_false_eq (l : Content) : cap false l = plines l := by
  unfold cap
  rcases eq_or_ne l [] with rfl | hl
  · simp [plines, nlcount]
  · rw [if_neg hl]

/-- Helper: one C-family step keeps the count plus the cap monotone. -/
theorem cfamStep_bound (g : GenLang) (s : CState) (c : Char) (rest : Content) :
    ((cfamStep g s c rest).1).sloc +
        cap ((cfamStep g s c rest).1).nonblank ((cfamStep g s c rest).2)
      ≤ s.sloc + cap s.nonblank (c :: rest) := by
  have hnil : (c :: rest : Content) ≠ [] := by simp
  have hspec := cfamDispatch_spec g s c rest
  rcases hd : cfamDispatch g s c rest with ⟨s1, c1, rest1⟩
  rw [hd] at hspec
  obtain ⟨hsl, hsub, hnl⟩ := hspec
  unfold cfamStep
  rw [hd]
  unfold cfamNewline
  dsimp only
  by_cases hc1 : c1 = '\n'
  · rw [if_pos hc1]
    have hsuf : ('\n' :: rest1) <:+ (c :: rest) := hnl hc1
    split
    · rename_i r2
      have h1 := cap_newline_pct s.nonblank hsuf
      have h2 : cap true r2 ≤ cap s.nonblank (c :: rest) :=
        cap_le _ _ (((List.suffix_cons '%' r2).trans
          (List.suffix_cons '\n' _)).trans hsuf) hnil
      dsimp only at hsl ⊢
      rw [hsl]
      split <;> omega
    · have h1 := cap_newline s.nonblank hsuf
      have h2 : cap false rest1 ≤ cap s.nonblank (c :: rest) :=
        cap_le _ _ ((List.suffix_cons '\n' rest1).trans hsuf) hnil
      dsimp only
      rw [hsl]
      split <;> omega
  · rw [if_neg hc1]
    dsimp only at hsl ⊢
    rw [hsl]
    have h2 : cap s1.nonblank rest1 ≤ cap s.nonblank (c :: rest) :=
      cap_le _ _ (hsub.trans (List.suffix_cons c rest)) hnil
    omega

/-- Helper: the scanner loop's count plus its pending line stay within the
initial cap. -/
theorem cfamLoopAux_bound (g : GenLang) (fuel : Nat) :
    ∀ (s : CState) (l : Content),
      (cfamLoopAux g fuel s l).sloc +
          (if (cfamLoopAux g fuel s l).nonblank then 1 else 0)
        ≤ s.sloc + cap s.nonblank l := by
  induction fuel with
  | zero =>
    intro s l
    rw [cfamLoopAux]
    have := bval_le_cap s.nonblank l
    omega
  | succ n ih =>
    intro s l
    match l with
    | [] =>
      rw [cfamLoopAux]
      have := bval_le_cap s.nonblank ([] : Content)
      omega
    | c :: rest =>
      rw [cfamLoopAux]
      rcases hs : cfamStep g s c rest with ⟨s2, rem⟩
      have hb := cfamStep_bound g s c rest
      rw [hs] at hb
      have h2 := ih s2 rem
      dsimp only at hb ⊢
      omega

/-- Helper: `c_family_counter` is bounded by the physical line count. -/
theorem c_family_counter_le_plines (g : GenLang) (lex0 : Bool)
    (content : Content) :
    (c_family_counter g lex0 content).1 ≤ plines content := by
  have hfin : (cfamFinish g lex0 content).1 ≤ plines content := by
    unfold cfamFinish cfamRun
    have hb := cfamLoopAux_bound g content.length (cfamInit lex0) content
    rw [show (cfamInit lex0).sloc = 0 from rfl,
      show (cfamInit lex0).nonblank = false from rfl, cap_false_eq] at hb
    dsimp only
    split
    · rename_i hnb
      rw [if_pos hnb] at hb
      omega
    · rename_i hnb
      rw [if_neg hnb] at hb
      omega
  unfold c_family_counter
  match g.verifier with
  | some v =>
    dsimp only
    split
    · exact Nat.zero_le _
    · exact hfin
  | none => exact hfin

/-- Helper: `munchline` delivers exactly one line per newline byte. -/
theorem completeLinesGo_length (l : Content) :
    ∀ acc : Content, (completeLinesGo acc l).length = nlcount l := by
  induction l with
  | nil => intro acc; rfl
  | cons c rest ih =>
    intro acc
    unfold completeLinesGo
    by_cases hc : c = '\n'
    · subst hc
      rw [if_pos rfl]
      simp only [List.length_cons, ih]
      simp [nlcount, List.countP_cons]
    · rw [if_neg hc, ih]
      simp [nlcount, List.countP_cons, hc]

/-- Helper: complete lines are at most the physical lines. -/
theorem completeLines_length_le_plines (l : Content) :
    (completeLines l).length ≤ plines l := by
  rw [completeLines, completeLinesGo_length]
  unfold plines
  split <;> omega

/-- Helper: `genericCounter` is bounded by the physical line count. -/
theorem genericCount_le_plines (eol : Content)
    (verifier : Option (Content → Bool)) (content : Content) :
    genericCount eol verifier content ≤ plines content := by
  have hl : genericCountLines eol content ≤ plines content :=
    le_trans (List.countP_le_length _) (completeLines_length_le_plines content)
  unfold genericCount
  match verifier with
  | some v =>
    dsimp only
    split
    · exact Nat.zero_le _
    · exact hl
  | none => exact hl

/-- Helper: one Python line adds at most one to the count. -/
theorem pythonStep_le (s : PyState) (line : Content) :
    (pythonStep s line).sloc ≤ s.sloc + 1 := by
  unfold pythonStep
  dsimp only
  repeat' split
  all_goals simp

/-- Helper: `pythonCounter` is bounded by the physical line count. -/
theorem pythonCount_le_plines (content : Content) :
    pythonCount content ≤ plines content := by
  have key : ∀ (lines : List Content) (s : PyState),
      (lines.foldl pythonStep s).sloc ≤ s.sloc + lines.length := by
    intro lines
    induction lines with
    | nil => intro s; simp
    | cons line rest ih =>
      intro s
      simp only [List.foldl_cons, List.length_cons]
      have h1 := pythonStep_le s line
      have h2 := ih (pythonStep s line)
      omega
  have h := key (completeLines content) ⟨false, false, 0⟩
  rw [show (⟨false, false, 0⟩ : PyState).sloc = 0 from rfl] at h
  have h2 := completeLines_length_le_plines content
  unfold pythonCount
  omega

/-- Helper: one Perl line adds at most one to the count. -/
theorem perlStep_le (s : PerlState) (line : Content) :
    ((perlStep s line).1).sloc ≤ s.sloc + 1 := by
  unfold perlStep
  dsimp only
  repeat' split
  all_goals simp

/-- Helper: `perlCounter` is bounded by the physical line count. -/
theorem perlCount_le_plines (content : Content) :
    perlCount content ≤ plines content := by
  have key : ∀ (lines : List Content) (s : PerlState),
      perlLoop s lines ≤ s.sloc + lines.length := by
    intro lines
    induction lines with
    | nil => intro s; simp [perlLoop]
    | cons line rest ih =>
      intro s
      rw [perlLoop]
      rcases hs : perlStep s line with ⟨s2, stop⟩
      have h1 := perlStep_le s line
      rw [hs] at h1
      match stop with
      | true =>
        dsimp only at h1 ⊢
        simp only [List.length_cons]
        omega
      | false =>
        dsimp only at h1 ⊢
        have h2 := ih s2
        simp only [List.length_cons]
        omega
  have h := key (completeLines content) ⟨[], false, 0⟩
  rw [show (⟨[], false, 0⟩ : PerlState).sloc = 0 from rfl] at h
  have h2 := completeLines_length_le_plines content
  unfold perlCount
  omega

/-- Helper: one Pascal-family step keeps the count plus the cap monotone. -/
theorem pasStep_bound (g : PascalLike) (s : PasState) (c : Char)
    (rest : Content) :
    ((pasStep g s c rest).1).sloc +
        cap ((pasStep g s c rest).1).nonblank ((pasStep g s c rest).2)
      ≤ s.sloc + cap s.nonblank (c :: rest) := by
  have hnil : (c :: rest : Content) ≠ [] := by simp
  have hsrest : rest <:+ c :: rest := List.suffix_cons c rest
  have hstail : List.tail rest <:+ c :: rest :=
    (List.tail_suffix rest).trans hsrest
  rcases s with ⟨m, nb, sl⟩
  unfold pasStep
  cases m <;> dsimp only
  case INCOMMENT =>
    split
    · have := cap_le nb nb hsrest hnil
      dsimp only
      omega
    · split
      · have := cap_le nb nb hstail hnil
        dsimp only
        omega
      · have := cap_le nb nb hsrest hnil
        dsimp only
        omega
  all_goals
    split
    · have := cap_le nb nb hsrest hnil
      dsimp only
      omega
    · split
      · have := cap_le nb nb hstail hnil
        dsimp only
        omega
      · split
        · have := cap_le nb true hsrest hnil
          dsimp only
          omega
        · split
          · rename_i hc
            subst hc
            have h1 := cap_newline nb (List.suffix_refl ('\n' :: rest))
            have h2 := cap_le nb false hsrest hnil
            dsimp only
            split <;> omega
          · have := cap_le nb nb hsrest hnil
            dsimp only
            omega

/-- Helper: the Pascal loop's count plus its pending line stay within the
initial cap. -/
theorem pasLoopAux_bound (g : PascalLike) (fuel : Nat) :
    ∀ (s : PasState) (l : Content),
      (pasLoopAux g fuel s l).sloc +
          (if (pasLoopAux g fuel s l).nonblank then 1 else 0)
        ≤ s.sloc + cap s.nonblank l := by
  induction fuel with
  | zero =>
    intro s l
    rw [pasLoopAux]
    have := bval_le_cap s.nonblank l
    omega
  | succ n ih =>
    intro s l
    match l with
    | [] =>
      rw [pasLoopAux]
      have := bval_le_cap s.nonblank ([] : Content)
      omega
    | c :: rest =>
      rw [pasLoopAux]
      rcases hs : pasStep g s c rest with ⟨s2, rem⟩
      have hb := pasStep_bound g s c rest
      rw [hs] at hb
      have h2 := ih s2 rem
      dsimp only at hb ⊢
      omega

/-- Helper: `pascalCounter` is bounded by the physical line count. -/
theorem pascalCount_le_plines (g : PascalLike) (content : Content) :
    pascalCount g content ≤ plines content := by
  have hfin : (match pasRun g ⟨CfMode.NORMAL, false, 0⟩ content with
      | fin => if fin.nonblank then fin.sloc + 1 else fin.sloc) ≤
        plines content := by
    unfold pasRun
    have hb := pasLoopAux_bound g content.length ⟨CfMode.NORMAL, false, 0⟩
      content
    rw [show (⟨CfMode.NORMAL, false, 0⟩ : PasState).sloc = 0 from rfl,
      show (⟨CfMode.NORMAL, false, 0⟩ : PasState).nonblank = false from rfl,
      cap_false_eq] at hb
    dsimp only
    split
    · rename_i hnb
      rw [if_pos hnb] at hb
      omega
    · rename_i hnb
      rw [if_neg hnb] at hb
      omega
  unfold pascalCount
  match g.verifier with
  | some v =>
    dsimp only
    split
    · exact Nat.zero_le _
    · exact hfin
  | none => exact hfin

/-- Helper: `fortranCounter` is bounded by the physical line count. -/
theorem fortranCount_le_plines (g : FortranLike) (content : Content) :
    fortranCount g content ≤ plines content :=
  le_trans (List.countP_le_length _) (completeLines_length_le_plines content)

/-- Helper: the mode dispatch never writes the `lexfile` flag (only the
newline block does). -/
theorem cfamDispatch_fst_lexfile (g : GenLang) (s : CState) (c : Char)
    (rest : Content) : ((cfamDispatch g s c rest).1).lexfile = s.lexfile := by
  rcases s with ⟨m, ct, nb, lx, sl⟩
  unfold cfamDispatch
  cases m <;> dsimp only <;> (repeat' split) <;> rfl

/-- Helper: one scanner step keeps `lexfile` set. -/
theorem cfamStep_lexfile_true (g : GenLang) (s : CState) (c : Char)
    (rest : Content) (h : s.lexfile = true) :
    ((cfamStep g s c rest).1).lexfile = true := by
  unfold cfamStep
  rcases hd : cfamDispatch g s c rest with ⟨s1, c1, r1⟩
  have h1 : s1.lexfile = true := by
    have h2 := cfamDispatch_fst_lexfile g s c rest
    rw [hd] at h2
    rw [h2]; exact h
  unfold cfamNewline
  dsimp only
  split
  · split
    · rfl
    · simpa using h1
  · simpa using h1

/-- Helper: the scanner loop keeps `lexfile` set. -/
theorem cfamLoopAux_lexfile_true (g : GenLang) (fuel : Nat) :
    ∀ (s : CState) (l : Content), s.lexfile = true →
      (cfamLoopAux g fuel s l).lexfile = true := by
  induction fuel with
  | zero => intro s l h; simpa [cfamLoopAux] using h
  | succ n ih =>
    intro s l h
    match l with
    | [] => simpa [cfamLoopAux] using h
    | c :: rest =>
      rw [cfamLoopAux]
      rcases hs : cfamStep g s c rest with ⟨s2, rem⟩
      have h2 : s2.lexfile = true := by
        have := cfamStep_lexfile_true g s c rest h
        rw [hs] at this
        exact this
      exact ih s2 rem h2

/-- C5 counterexample: in a run on the file `"%\n"` — whose only line begins
with `%` — the `lexfile` flag is still unset afterwards, and a double quote
read next in `NORMAL` mode still enters the string state: the suppression
does not apply to a `%` on the first line of the file, because the `%` test
runs only after a newline has been consumed. -/
theorem cfam_first_line_percent_not_detected :
    (cfamRun ⟨"c", ".c".toList, "/*".toList, "*/".toList, "//".toList, [],
        true, none⟩ (cfamInit false) ("%\n".toList)).lexfile = false ∧
    (cfamStep ⟨"c", ".c".toList, "/*".toList, "*/".toList, "//".toList, [],
        true, none⟩
      (cfamRun ⟨"c", ".c".toList, "/*".toList, "*/".toList, "//".toList, [],
        true, none⟩ (cfamInit false) ("%\n".toList))
      '\"' []).1.mode = CfMode.INSTRING := by
  constructor <;> rfl

/-- C5 (amended): (a) while the `lexfile` flag is set, a quote byte read in
`NORMAL` mode only marks the line nonblank — no transition into string state
(for any syntax whose comment and multiline-string delimiters do not begin
with that quote, true of every table entry); (b) once set, `lexfile` stays
set for the rest of the scan; (c) the flag is set exactly by a `%` byte
immediately following a newline consumed by the top-level loop — so it
applies to a line beginning with `%` only when a newline was read before it,
which excludes the first line of the file. -/
theorem cfam_lex_directive_suppression (g : GenLang) (s : CState) (c : Char)
    (rest input : Content) :
    (s.mode = CfMode.NORMAL → s.lexfile = true → (c = '\"' ∨ c = '\'') →
      nthByte g.commentleader 0 ≠ c →
      (g.eolcomment ≠ [] → nthByte g.eolcomment 0 ≠ c) →
      (g.multistring ≠ [] → nthByte g.multistring 0 ≠ c) →
      cfamStep g s c rest = ({ s with nonblank := true }, rest)) ∧
    (s.lexfile = true → (cfamRun g s input).lexfile = true) ∧
    (nthByte g.commentleader 0 ≠ '\n' →
      (g.eolcomment ≠ [] → nthByte g.eolcomment 0 ≠ '\n') →
      (g.multistring ≠ [] → nthByte g.multistring 0 ≠ '\n') →
      nthByte g.commenttrailer 0 ≠ '\n' →
      ((cfamStep g s '\n' ('%' :: rest)).1.lexfile = true ∧
        (cfamStep g s '\n' ('%' :: rest)).2 = rest)) := by
  refine ⟨?_, ?_, ?_⟩
  · intro hmode hlex hq hcl heol hms
    rcases s with ⟨m, ct, nb, lx, sl⟩
    simp only at hmode hlex
    subst hmode hlex
    have hns : isspace c = false := by rcases hq with rfl | rfl <;> rfl
    have hnn : c ≠ '\n' := by rcases hq with rfl | rfl <;> decide
    unfold cfamStep cfamDispatch
    dsimp only
    rw [if_neg (by simp), if_neg (by simp), if_neg ?hcl, if_neg ?hel,
      if_neg ?hml, if_pos (by simp [hns])]
    case hcl => rintro ⟨h1, -⟩; exact hcl h1.symm
    case hel =>
      rintro ⟨h1, h2, -⟩; exact heol h1 h2.symm
    case hml =>
      rintro ⟨h1, h2⟩; exact hms h1 h2.symm
    unfold cfamNewline
    rw [if_neg hnn]
  · intro h
    exact cfamLoopAux_lexfile_true g input.length s input h
  · intro hcl heol hms htr
    have key : ((cfamDispatch g s '\n' ('%' :: rest)).2) = ('\n', '%' :: rest) := by
      rcases s with ⟨m, ct, nb, lx, sl⟩
      unfold cfamDispatch
      cases m <;> dsimp only
      case NORMAL =>
        rw [if_neg (by rintro ⟨-, h⟩; exact absurd h (by decide)),
          if_neg (by rintro ⟨-, h⟩; exact absurd h (by decide)),
          if_neg (by rintro ⟨h, -⟩; exact hcl h.symm),
          if_neg (by rintro ⟨h1, h2, -⟩; exact heol h1 h2.symm),
          if_neg (by rintro ⟨h1, h2⟩; exact hms h1 h2.symm),
          if_neg (by simp [isspace])]
      case INSTRING => simp [isspace]
      case INMULTISTRING =>
        have hne : ¬('\n' = nthByte g.multistring 0) := by
          intro h
          rcases hems : g.multistring with _ | ⟨a, tl⟩
          · rw [hems] at h; exact absurd h (by decide)
          · exact hms (by rw [hems]; simp) h.symm
        rw [if_neg hne]
      case INCOMMENT =>
        rw [if_neg (by rintro ⟨-, h, -⟩; exact htr h.symm)]
    rcases hd : cfamDispatch g s '\n' ('%' :: rest) with ⟨s1, c1, r1⟩
    rw [hd] at key
    have hc1 : c1 = '\n' := congrArg Prod.fst key
    have hr1 : r1 = '%' :: rest := congrArg Prod.snd key
    subst hc1 hr1
    unfold cfamStep
    rw [hd]
    simp [cfamNewline]

/-- C5 witness: the amended theorem applied to the C syntax at a state with
the `lexfile` flag set (a quote only marks the line nonblank), at an input
that keeps the flag, and at a newline followed by `%` (the flag is set). -/
theorem cfam_lex_directive_suppression_witness :
    (cfamStep ⟨"c", ".c".toList, "/*".toList, "*/".toList, "//".toList, [],
        true, none⟩ ⟨CfMode.NORMAL, CfComment.BLOCK, false, true, 5⟩ '\"'
        ("abc".toList) =
      (⟨CfMode.NORMAL, CfComment.BLOCK, true, true, 5⟩, "abc".toList)) ∧
    (cfamRun ⟨"c", ".c".toList, "/*".toList, "*/".toList, "//".toList, [],
        true, none⟩ ⟨CfMode.NORMAL, CfComment.BLOCK, false, true, 0⟩
        ("\"hi\"\n".toList)).lexfile = true ∧
    ((cfamStep ⟨"c", ".c".toList, "/*".toList, "*/".toList, "//".toList, [],
        true, none⟩ ⟨CfMode.NORMAL, CfComment.BLOCK, true, false, 2⟩ '\n'
        ('%' :: "x\n".toList)).1.lexfile = true) := by
  refine ⟨?_, ?_, ?_⟩
  · exact (cfam_lex_directive_suppression _ _ '\"' ("abc".toList) []).1 rfl rfl
      (Or.inl rfl) (by decide) (by intro h; decide) (by intro h; simp at h)
  · exact (cfam_lex_directive_suppression _
      ⟨CfMode.NORMAL, CfComment.BLOCK, false, true, 0⟩ ' ' []
      ("\"hi\"\n".toList)).2.1 rfl
  · exact ((cfam_lex_directive_suppression _
      ⟨CfMode.NORMAL, CfComment.BLOCK, true, false, 2⟩ ' ' ("x\n".toList)
      []).2.2 (by decide) (by intro h; decide) (by intro h; simp at h)
      (by decide)).1

/-- C7: every scanner — `c_family_counter`, `genericCounter`,
`pythonCounter`, `perlCounter`, `pascalCounter`, `fortranCounter` — counts
each physical line at most once: on every input the returned SLOC never
exceeds the number of physical lines of the file. -/
theorem all_counters_le_physical_lines (gc : GenLang) (gp : PascalLike)
    (gf : FortranLike) (eol : Content) (verifier : Option (Content → Bool))
    (lex0 : Bool) (content : Content) :
    (c_family_counter gc lex0 content).1 ≤ plines content ∧
    genericCount eol verifier content ≤ plines content ∧
    pythonCount content ≤ plines content ∧
    perlCount content ≤ plines content ∧
    pascalCount gp content ≤ plines content ∧
    fortranCount gf content ≤ plines content :=
  ⟨c_family_counter_le_plines gc lex0 content,
   genericCount_le_plines eol verifier content,
   pythonCount_le_plines content,
   perlCount_le_plines content,
   pascalCount_le_plines gp content,
   fortranCount_le_plines gf content⟩

/-- Helper: folding more errors over a latched state never changes it. -/
theorem foldl_setTerminated_latch (errs : List String) :
    ∀ (ws : WalkState) (e : String), ws.firstError = some e →
      (errs.foldl setTerminated ws).firstError = some e := by
  induction errs with
  | nil => intro ws e h; simpa using h
  | cons e1 rest ih =>
    intro ws e h
    simp only [List.foldl_cons]
    apply ih
    unfold setTerminated
    rw [if_neg (by simp [h])]
    exact h

/-- C9: the walk's error slot latches only the first error: a later
`setTerminated` on a non-nil slot is a no-op, any sequence of later calls
leaves the slot unchanged, and starting from an empty slot the retained
error is the first of the sequence. -/
theorem walk_first_error_latched (ws : WalkState) (e err : String)
    (errs : List String) :
    (ws.firstError = some e → (setTerminated ws err).firstError = some e) ∧
    (ws.firstError = some e →
      (errs.foldl setTerminated ws).firstError = some e) ∧
    (errs.foldl setTerminated ⟨none⟩).firstError = errs.head? := by
  refine ⟨?_, ?_, ?_⟩
  · intro h
    unfold setTerminated
    rw [if_neg (by simp [h])]
    exact h
  · intro h
    exact foldl_setTerminated_latch errs ws e h
  · match errs with
    | [] => rfl
    | e1 :: rest =>
      simp only [List.foldl_cons, List.head?_cons]
      exact foldl_setTerminated_latch rest (setTerminated ⟨none⟩ e1) e1 rfl

/-- C9 witness: the theorem at a latched slot and at a concrete error
sequence. -/
theorem walk_first_error_latched_witness :
    (setTerminated ⟨some "first"⟩ "later").firstError = some "first" ∧
    (["a", "b", "c"].foldl setTerminated ⟨none⟩).firstError = some "a" := by
  constructor
  · exact (walk_first_error_latched ⟨some "first"⟩ "first" "later" []).1 rfl
  · exact (walk_first_error_latched ⟨none⟩ "x" "y" ["a", "b", "c"]).2.2

/-- C10: `hashbang` returns true only if the stat mode has a bit of `01111`
set and the first line is a `#!` line containing the interpreter name; in
particular a file with no execute bit is never classified by its
interpreter line. -/
theorem hashbang_requires_exec_bit (mode : Nat) (c : Content)
    (lang : Content) :
    (hashbangM ⟨mode, some c⟩ lang = some true →
      mode &&& 0o1111 ≠ 0 ∧
      ∃ s, firstLineThroughNL c = some s ∧
        goHasPrefix s "#!".toList = true ∧ goContains s lang = true) ∧
    (mode &&& 0o1111 = 0 → hashbangM ⟨mode, some c⟩ lang = some false) := by
  constructor
  · intro h
    unfold hashbangM at h
    by_cases hm : mode &&& 0o1111 = 0
    · rw [if_pos hm] at h
      simp at h
    · rw [if_neg hm] at h
      dsimp only at h
      refine ⟨hm, ?_⟩
      rcases hfl : firstLineThroughNL c with _ | s
      · rw [hfl] at h
        simp at h
      · rw [hfl] at h
        rw [Option.some_inj, Bool.and_eq_true] at h
        exact ⟨s, rfl, h.1, h.2⟩
  · intro hm
    unfold hashbangM
    rw [if_pos hm]

/-- C10 witness: the theorem at an executable `#!` file and at a
non-executable file. -/
theorem hashbang_requires_exec_bit_witness :
    ((0o755 : Nat) &&& 0o1111 ≠ 0 ∧
      ∃ s, firstLineThroughNL ("#!/usr/bin/python\n".toList) = some s ∧
        goHasPrefix s "#!".toList = true ∧
        goContains s ("python".toList) = true) ∧
    hashbangM ⟨0o644, some ("#!/bin/sh\n".toList)⟩ ("sh".toList)
      = some false := by
  constructor
  · exact (hashbang_requires_exec_bit 0o755 ("#!/usr/bin/python\n".toList)
      ("python".toList)).1 rfl
  · exact (hashbang_requires_exec_bit 0o644 ("#!/bin/sh\n".toList)
      ("sh".toList)).2 rfl

/-- C8: classification is a function of the path and the file at that path
alone: two snapshots of the file system that agree on the file (same bytes,
same mode) classify it identically, independently of everything else —
`Generic` reads no shared mutable state (the rule tables are built once and
never written, the scan context is freshly allocated per file). -/
theorem generic_deterministic (fs1 fs2 : Content → GoFile) (path : Content)
    (h : fs1 path = fs2 path) :
    Generic path (fs1 path) = Generic path (fs2 path) := by
  rw [h]

/-- C8 witness: two file systems differing away from the classified path
give the same record for it. -/
theorem generic_deterministic_witness :
    ((fun p : Content =>
        if p = "a.c".toList then GoFile.mk 0 (some ("x;\n".toList))
        else GoFile.mk 0 none) "a.c".toList
      = (fun _ : Content => GoFile.mk 0 (some ("x;\n".toList))) "a.c".toList) ∧
    Generic "a.c".toList
        ((fun p : Content =>
          if p = "a.c".toList then GoFile.mk 0 (some ("x;\n".toList))
          else GoFile.mk 0 none) "a.c".toList)
      = Generic "a.c".toList
        ((fun _ : Content => GoFile.mk 0 (some ("x;\n".toList)))
          "a.c".toList) := by
  constructor
  · rfl
  · exact generic_deterministic
      (fun p : Content =>
        if p = "a.c".toList then GoFile.mk 0 (some ("x;\n".toList))
        else GoFile.mk 0 none)
      (fun _ : Content => GoFile.mk 0 (some ("x;\n".toList)))
      "a.c".toList rfl

/-- Helper: on an unopenable file the generic table loop either panics (a
suffix matched, so the generated-file filter read a nil reader) or falls
through unchanged. -/
theorem genericTableLoop_unopenable (path : Content) (mode : Nat)
    (tbl : List GenLang) :
    ∀ lex : Bool,
      genericTableLoop path ⟨mode, none⟩ tbl lex = GLoopOut.panicked ∨
      genericTableLoop path ⟨mode, none⟩ tbl lex = GLoopOut.fell lex := by
  induction tbl with
  | nil => intro lex; right; rfl
  | cons lang rest ih =>
    intro lex
    rw [genericTableLoop]
    by_cases hs : goHasSuffix path lang.suffix = true
    · rw [if_pos hs]
      left
      rfl
    · rw [if_neg hs]
      exact ih lex

/-- C1: counting a file whose `os.Open` fails does not produce a zero-count
record — it panics.  `setup` logs the error and returns `false`, but every
caller ignores that return value: the first read through the still-nil
`bufio.Reader` (in the generated-file filter, a counter, or `hashbang`)
dereferences a nil pointer, so `Generic` crashes the walker instead of
yielding a record and continuing. -/
theorem generic_unopenable_file_panics (path : Content) (mode : Nat) :
    Generic path ⟨mode, none⟩ = none := by
  unfold Generic
  rcases genericTableLoop_unopenable path mode genericLanguages false with
    h | h <;> rw [h]
  have hb : ∀ lg : Content, hashbangM ⟨mode, none⟩ lg =
      if mode &&& 0o1111 = 0 then some false else none := by
    intro lg
    unfold hashbangM
    split <;> rfl
  by_cases hm : mode &&& 0o1111 = 0
  · simp only [hb, if_pos hm]
    by_cases hpy : goHasSuffix path ".py".toList = true
    · rw [if_pos hpy]
      try rfl
    · rw [if_neg hpy]
      by_cases hpl : (goHasSuffix path ".pl".toList ||
          goHasSuffix path ".pm".toList || goHasSuffix path ".ph".toList)
            = true
      · rw [if_pos hpl]
        try rfl
      · rw [if_neg hpl]
        by_cases hws : goBase path = "wscript".toList
        · rw [if_pos hws]
          try rfl
        · rw [if_neg hws]
          try rfl
  · simp only [hb, if_neg hm]
    by_cases hpy : goHasSuffix path ".py".toList = true
    · rw [if_pos hpy]
      try rfl
    · rw [if_neg hpy]
      try rfl

/-- C3 counterexample: a `.l` file whose content fails the lex verifier and
counts 2 nonzero lines under the later verifier-less lisp rule is still not
attributed to lisp when the generated-file filter fires at the first
matching rule — it yields the zero record immediately. -/
theorem generic_generated_lex_file_not_attributed :
    Generic ("foo.l".toList)
        ⟨0, some ("// generated by flex\n(print)\n".toList)⟩ = some zeroStat ∧
    really_is_lex ("// generated by flex\n(print)\n".toList) = false ∧
    genericCount (";".toList) none
        ("// generated by flex\n(print)\n".toList) = 2 := by
  refine ⟨?_, ?_, ?_⟩ <;> rfl

/-- C3 (amended): classifier precedence in the `genericLanguages` table,
provided the generated-file filter does not fire for any matching rule.
First, the concrete `.l` instance: a file failing the lex verifier but
counting nonzero under the later lisp rule is attributed to lisp with that
count.  Second, in general: the first matching rule whose counter yields a
nonzero count wins and the walk of the table stops there, earlier matching
rules having passed the filter and counted zero. -/
theorem generic_table_precedence :
    (Generic ("foo.l".toList) ⟨0, some ("(print)\n".toList)⟩
        = some ⟨"", "lisp", 1⟩ ∧
      really_is_lex ("(print)\n".toList) = false ∧
      genericCount (";".toList) none ("(print)\n".toList) = 1) ∧
    (∀ (t1 : List GenLang), ∀ (t2 : List GenLang) (r : GenLang)
        (path : Content) (mode : Nat) (c : Content) (lex lex2 : Bool)
        (n : Nat),
      (∀ r' ∈ t1, goHasSuffix path r'.suffix = true →
        wasGenerated r'.eolcomment c = false ∧
          ruleCount r' lex c = (0, lex)) →
      goHasSuffix path r.suffix = true →
      wasGenerated r.eolcomment c = false →
      ruleCount r lex c = (n, lex2) →
      0 < n →
      genericTableLoop path ⟨mode, some c⟩ (t1 ++ r :: t2) lex
        = GLoopOut.finished ⟨"", r.name, n⟩) := by
  constructor
  · refine ⟨?_, ?_, ?_⟩ <;> rfl
  · intro t1
    induction t1 with
    | nil =>
      intro t2 r path mode c lex lex2 n h1 hsuf hgen hrc hn
      rw [List.nil_append, genericTableLoop, if_pos hsuf]
      simp only [wasGeneratedM, Option.map_some']
      rw [hgen]
      dsimp only
      rw [hrc]
      dsimp only
      rw [if_pos hn]
    | cons r1 t1x ih =>
      intro t2 r path mode c lex lex2 n h1 hsuf hgen hrc hn
      rw [List.cons_append, genericTableLoop]
      by_cases hs1 : goHasSuffix path r1.suffix = true
      · rw [if_pos hs1]
        obtain ⟨hg1, hc1⟩ := h1 r1 (List.mem_cons_self r1 t1x) hs1
        simp only [wasGeneratedM, Option.map_some']
        rw [hg1]
        dsimp only
        rw [hc1]
        dsimp only
        rw [if_neg (by simp)]
        exact ih t2 r path mode c lex lex2 n
          (fun r' hmem hs => h1 r' (List.mem_cons_of_mem r1 hmem) hs)
          hsuf hgen hrc hn
      · rw [if_neg hs1]
        exact ih t2 r path mode c lex lex2 n
          (fun r' hmem hs => h1 r' (List.mem_cons_of_mem r1 hmem) hs)
          hsuf hgen hrc hn

/-- C3 witness: the general precedence statement applied to a one-row table
at concrete inputs. -/
theorem generic_table_precedence_witness :
    genericTableLoop ("x.l".toList) ⟨0, some ("(print)\n".toList)⟩
        [⟨"lisp", ".l".toList, [], [], ";".toList, [], true, none⟩] false
      = GLoopOut.finished ⟨"", "lisp", 1⟩ := by
  exact (generic_table_precedence).2 [] []
    ⟨"lisp", ".l".toList, [], [], ";".toList, [], true, none⟩
    ("x.l".toList) 0 ("(print)\n".toList) false false 1
    (fun r' hmem _ => absurd hmem (List.not_mem_nil r'))
    (by decide) (by decide) (by decide) (by decide)

/-- Helper: a rule table with no matching suffix falls through unchanged. -/
theorem genericTableLoop_no_match (path : Content) (f : GoFile)
    (tbl : List GenLang) :
    ∀ lex : Bool, (∀ lang ∈ tbl, goHasSuffix path lang.suffix = false) →
      genericTableLoop path f tbl lex = GLoopOut.fell lex := by
  induction tbl with
  | nil => intro lex _; rfl
  | cons lang rest ih =>
    intro lex h
    rw [genericTableLoop,
      if_neg (by rw [h lang (List.mem_cons_self lang rest)]; simp)]
    exact ih lex (fun l2 hm => h l2 (List.mem_cons_of_mem lang hm))

/-- Helper: the scripting table falls through when the generated-file filter
passes, no suffix matches, and every hashbang probe answers false. -/
theorem scriptingLoop_no_match (path : Content) (f : GoFile)
    (tbl : List ScriptLang)
    (hgen : wasGeneratedM f.content ['#'] = some false)
    (hsuf : ∀ lang ∈ tbl, goHasSuffix path lang.suffix = false)
    (hhb : ∀ lang ∈ tbl, hashbangM f lang.hashbang = some false) :
    scriptingLoop path f tbl = GLoopOut.fell false := by
  induction tbl with
  | nil => rfl
  | cons lang rest ih =>
    rw [scriptingLoop, hgen]
    have h1 := hsuf lang (List.mem_cons_self lang rest)
    have h2 := hhb lang (List.mem_cons_self lang rest)
    rw [if_neg (by rw [h1]; simp), h2]
    exact ih (fun l2 hm => hsuf l2 (List.mem_cons_of_mem lang hm))
      (fun l2 hm => hhb l2 (List.mem_cons_of_mem lang hm))

/-- C6 counterexample: a `.pas` file that matches no generic, scripting,
python, perl or wscript case and counts 2 nonzero lines under the first
`pascalLikes` rule is nonetheless not attributed to pascal: the scripting
loop's generated-file filter (run before any suffix is even compared) fires
and yields the zero record, so classification never falls through to the
bracket table. -/
theorem generic_generated_filter_blocks_pascal :
    Generic ("foo.pas".toList)
        ⟨0, some ("# generated by hand\nbegin end.\n".toList)⟩
      = some zeroStat ∧
    0 < pascalCount ⟨"pascal", ".pas".toList, true, none⟩
        ("# generated by hand\nbegin end.\n".toList) := by
  exact ⟨rfl, by decide⟩

/-- Helper: `pascalLoop` skips rules whose suffix does not match, leaving
the carried stat unchanged. -/
theorem pascalLoop_skip (path : Content) (f : GoFile) (t1 t2 : List PascalLike)
    (st : SourceStat) (h : ∀ q ∈ t1, goHasSuffix path q.suffix = false) :
    pascalLoop path f (t1 ++ t2) st = pascalLoop path f t2 st := by
  induction t1 with
  | nil => rfl
  | cons q rest ih =>
    rw [List.cons_append, pascalLoop,
      if_neg (by rw [h q (List.mem_cons_self q rest)]; simp)]
    exact ih (fun q2 hm => h q2 (List.mem_cons_of_mem q hm))

/-- C6 (amended): every file whose path matches no `genericLanguages` rule,
none of the python/perl/wscript cases (no such suffix and a hashbang probe
answering false, which covers both non-executable files and executables
whose first line fails the probe), no scripting suffix, and whose hashbang
probes for every scripting row answer false, and which additionally passes
the generated-file filter with the `#` leader (which the scripting loop runs
unconditionally, before any suffix comparison), falls through to the
`pascalLikes` table: the first rule whose suffix matches the path has its
scanner run, and a nonzero count attributes the file to that rule's
language with that count. -/
theorem generic_fallthrough_to_pascal (path : Content) (mode : Nat)
    (c : Content) (t1 t2 : List PascalLike) (r : PascalLike)
    (hgsuf : ∀ g ∈ genericLanguages, goHasSuffix path g.suffix = false)
    (hpy : goHasSuffix path ['.', 'p', 'y'] = false)
    (hpyhb : hashbangM ⟨mode, some c⟩ "python".toList = some false)
    (hpl : goHasSuffix path ['.', 'p', 'l'] = false)
    (hpm : goHasSuffix path ['.', 'p', 'm'] = false)
    (hph : goHasSuffix path ['.', 'p', 'h'] = false)
    (hperlhb : hashbangM ⟨mode, some c⟩ "perl".toList = some false)
    (hws : goBase path ≠ "wscript".toList)
    (hssuf : ∀ s ∈ scriptingLanguages, goHasSuffix path s.suffix = false)
    (hshb : ∀ s ∈ scriptingLanguages,
      hashbangM ⟨mode, some c⟩ s.hashbang = some false)
    (hng : wasGenerated ['#'] c = false)
    (hsplit : pascalLikes = t1 ++ r :: t2)
    (ht1 : ∀ q ∈ t1, goHasSuffix path q.suffix = false)
    (hr : goHasSuffix path r.suffix = true)
    (hn : 0 < pascalCount r c) :
    Generic path ⟨mode, some c⟩ = some ⟨"", r.name, pascalCount r c⟩ := by
  have hskip := genericTableLoop_no_match path ⟨mode, some c⟩
    genericLanguages false hgsuf
  have hscript : scriptingLoop path ⟨mode, some c⟩ scriptingLanguages
      = GLoopOut.fell false := by
    apply scriptingLoop_no_match
    · simp [wasGeneratedM, hng]
    · exact hssuf
    · exact hshb
  have hpas : pascalLoop path ⟨mode, some c⟩ pascalLikes zeroStat
      = PLoopOut.finished ⟨"", r.name, pascalCount r c⟩ := by
    rw [hsplit, pascalLoop_skip path ⟨mode, some c⟩ t1 (r :: t2) zeroStat ht1,
      pascalLoop, if_pos hr]
    dsimp only
    rw [if_pos hn]
    rfl
  unfold Generic
  rw [hskip]
  rw [if_neg (by simp [hpy]), hpyhb]
  dsimp only
  rw [if_neg (by simp [hpl, hpm, hph]), hperlhb]
  dsimp only
  rw [if_neg hws, hscript]
  dsimp only
  rw [hpas]

/-- C6 witness: the amended theorem at a concrete executable (mode `0o700`)
Oberon file, matched by the last `pascalLikes` rule, whose first line fails
every hashbang probe. -/
theorem generic_fallthrough_to_pascal_witness :
    Generic ("m.mod".toList) ⟨0o700, some ("MODULE m;\nEND m.\n".toList)⟩
      = some ⟨"", "oberon", 2⟩ := by
  rw [generic_fallthrough_to_pascal ("m.mod".toList) 0o700
    ("MODULE m;\nEND m.\n".toList) (List.take 11 pascalLikes) []
    ⟨"oberon", ".mod".toList, false, none⟩
    (by decide) (by decide) (by decide) (by decide) (by decide) (by decide)
    (by decide) (by decide) (by decide) (by decide) (by decide) rfl
    (by decide) (by decide) (by decide)]
  rfl

end Loccount
